import Mathlib

/-!
# dnsmadeeasy: a client for the DNS Made Easy API

A shallow embedding of `dnsmadeeasy.go`.

* A Go string is a byte string.  The strings of a `Record`, which the caller
  builds and `json.Marshal` reads, are `GoString`, lists of bytes that need not be
  valid UTF-8.  Where only text is at stake (URLs, header values, keys, strings
  read from JSON) a Go string is the Lean string of its text, and `[]byte(s)` is
  the UTF-8 encoding `utf8Bytes s`.
* Unsigned integers are `Nat`, signed ones `Int`; where a JSON number is decoded
  into one of them the range of the Go type is checked.
* A `*Record` argument is a `Record`: the pointer is not nil.
* A Go slice is `Slice α`: `none` is the nil slice, `some xs` a non-nil slice.
* `error` results are `Option Error`, `none` being Go's `nil`.
* `encoding/json` is split in two.  The part that depends on the types declared in
  this package (field names, struct tags, `omitempty`, the shape of the maps that
  are built) is modelled here, as a translation between Go values and JSON
  documents.  The part that turns a document into bytes and back is a collaborator
  held in `Env`, like the HTTP transport and the clock.
* HMAC-SHA1 is the function of RFC 2104 and RFC 3174, written out.
* Every operation returns an `Outcome`: the value it returns (or the state of the
  object it was given), its `error`, and the requests it handed to the transport.
-/

namespace DNSMadeEasy

/-! ## Basic data -/

/-- A byte string: every element is meant to be below 256. -/
abbrev Bytes := List Nat

/-- A Go slice: `none` is the nil slice. -/
abbrev Slice (α : Type) := Option (List α)

/-- A Go string given by its bytes, which need not be valid UTF-8. -/
abbrev GoString := Bytes

/-- The UTF-8 encoding of the code point `n`. -/
def encodeRune (n : Nat) : Bytes :=
  if n < 0x80 then [n]
  else if n < 0x800 then [0xC0 + n / 64, 0x80 + n % 64]
  else if n < 0x10000 then [0xE0 + n / 4096, 0x80 + n / 64 % 64, 0x80 + n % 64]
  else [0xF0 + n / 262144, 0x80 + n / 4096 % 64, 0x80 + n / 64 % 64, 0x80 + n % 64]

/-- The bytes of a Go string that holds the text `s`, `[]byte(s)`. -/
def utf8Bytes (s : String) : Bytes := s.data.flatMap fun ch => encodeRune ch.toNat

/-- A continuation byte of UTF-8, `0x80` to `0xBF`. -/
def isCont (b : Nat) : Bool := 0x80 ≤ b && b ≤ 0xBF

/-- The function `utf8.DecodeRune`: the first code point of a byte string and the
number of bytes it takes; `(0xFFFD, 1)` when the bytes do not begin with a valid
encoding. -/
def decodeRune : Bytes → Nat × Nat
  | [] => (0xFFFD, 0)
  | b0 :: rest =>
    if b0 < 0x80 then (b0, 1)
    else if 0xC2 ≤ b0 ∧ b0 ≤ 0xDF then
      match rest with
      | b1 :: _ => if isCont b1 then (b0 % 32 * 64 + b1 % 64, 2) else (0xFFFD, 1)
      | _ => (0xFFFD, 1)
    else if 0xE0 ≤ b0 ∧ b0 ≤ 0xEF then
      match rest with
      | b1 :: b2 :: _ =>
        if (if b0 = 0xE0 then 0xA0 else 0x80) ≤ b1 ∧ b1 ≤ (if b0 = 0xED then 0x9F else 0xBF) ∧
            isCont b2 then
          (b0 % 16 * 4096 + b1 % 64 * 64 + b2 % 64, 3)
        else (0xFFFD, 1)
      | _ => (0xFFFD, 1)
    else if 0xF0 ≤ b0 ∧ b0 ≤ 0xF4 then
      match rest with
      | b1 :: b2 :: b3 :: _ =>
        if (if b0 = 0xF0 then 0x90 else 0x80) ≤ b1 ∧ b1 ≤ (if b0 = 0xF4 then 0x8F else 0xBF) ∧
            isCont b2 ∧ isCont b3 then
          (b0 % 8 * 262144 + b1 % 64 * 4096 + b2 % 64 * 64 + b3 % 64, 4)
        else (0xFFFD, 1)
      | _ => (0xFFFD, 1)
    else (0xFFFD, 1)

/-- The code points of a byte string, every byte that begins no valid encoding
replaced by U+FFFD; `fuel` bounds their number. -/
def decodeRunes : Nat → Bytes → List Nat
  | 0, _ => []
  | fuel + 1, b =>
    if b.isEmpty then [] else (decodeRune b).1 :: decodeRunes fuel (b.drop (decodeRune b).2)

/-- The text `encoding/json` writes for a Go string: the string coerced to valid
UTF-8, invalid bytes replaced by the Unicode replacement character. -/
def toValidUTF8 (b : GoString) : String := String.mk ((decodeRunes b.length b).map Char.ofNat)

/-- One lowercase hexadecimal digit. -/
def hexDigit (n : Nat) : Char :=
  if n < 10 then Char.ofNat (48 + n) else Char.ofNat (87 + n)

/-- The text `fmt.Sprintf("%x", b)` prints for a byte slice `b`: two lowercase
hexadecimal digits per byte. -/
def hexEncode (b : Bytes) : String :=
  String.mk (b.flatMap fun x => [hexDigit (x / 16 % 16), hexDigit (x % 16)])

/-- The value of a lowercase hexadecimal digit; `none` for any other character. -/
def hexValue (ch : Char) : Option Nat :=
  if 48 ≤ ch.toNat ∧ ch.toNat ≤ 57 then some (ch.toNat - 48)
  else if 97 ≤ ch.toNat ∧ ch.toNat ≤ 102 then some (ch.toNat - 87)
  else none

/-- The bytes a text of lowercase hexadecimal digits writes, two digits per byte. -/
def hexDecodeChars : List Char → Option Bytes
  | [] => some []
  | [_] => none
  | hi :: lo :: rest =>
    match hexValue hi, hexValue lo, hexDecodeChars rest with
    | some h, some l, some bs => some ((h * 16 + l) :: bs)
    | _, _, _ => none

/-- The bytes a lowercase hexadecimal text writes; `none` when the text is not
made of pairs of lowercase hexadecimal digits. -/
def hexDecode (s : String) : Option Bytes := hexDecodeChars s.data

/-- The decimal digits of `n`, most significant first; `fuel` bounds their number. -/
def decimalDigits : Nat → Nat → List Char
  | 0, _ => []
  | fuel + 1, n =>
    if n < 10 then [Char.ofNat (48 + n)]
    else decimalDigits fuel (n / 10) ++ [Char.ofNat (48 + n % 10)]

/-- The text `%d` prints for an unsigned integer. -/
def fmtUint (n : Nat) : String := String.mk (decimalDigits (n + 1) n)

/-- The decimal text of an integer, as characters. -/
def intChars (n : Int) : List Char :=
  match n with
  | .ofNat m => decimalDigits (m + 1) m
  | .negSucc m => '-' :: decimalDigits (m + 2) (m + 1)

/-- The decimal text of an integer. -/
def fmtInt (n : Int) : String := String.mk (intChars n)

/-- The value of a decimal digit; `none` for any other character. -/
def digitValue (ch : Char) : Option Nat :=
  if 48 ≤ ch.toNat ∧ ch.toNat ≤ 57 then some (ch.toNat - 48) else none

/-- Read decimal digits onto the number read so far; `none` at a character that is
not a digit. -/
def readDigits : List Char → Option Nat → Option Nat
  | [], acc => acc
  | ch :: rest, acc =>
    match acc, digitValue ch with
    | some a, some d => readDigits rest (some (a * 10 + d))
    | _, _ => none

/-- The number a decimal numeral writes: at least one digit, digits only, and no
zero in front of another digit. -/
def decimalValue (s : String) : Option Nat :=
  match s.data with
  | [] => none
  | ch :: rest => if ch = '0' ∧ rest ≠ [] then none else readDigits (ch :: rest) (some 0)

/-! ## HMAC-SHA1 -/

/-- Rotate a 32-bit word left by `k` bits. -/
def rotl32 (k x : Nat) : Nat := (x * 2 ^ k % 2 ^ 32) ||| (x / 2 ^ (32 - k))

/-- The `n` big-endian bytes of `x`. -/
def bigEndian : Nat → Nat → Bytes
  | 0, _ => []
  | n + 1, x => bigEndian n (x / 256) ++ [x % 256]

/-- The number a big-endian byte string writes. -/
def ofBigEndian (b : Bytes) : Nat := b.foldl (fun acc x => acc * 256 + x % 256) 0

/-- Cut a list into pieces of `n` elements; `fuel` bounds the number of pieces. -/
def chunks {α : Type} (n : Nat) : Nat → List α → List (List α)
  | 0, _ => []
  | fuel + 1, xs => if xs.isEmpty then [] else xs.take n :: chunks n fuel (xs.drop n)

/-- The padding of SHA-1: a 1 bit, zeros, and the length in bits on 8 bytes. -/
def sha1Pad (msg : Bytes) : Bytes :=
  msg ++ [0x80] ++ List.replicate ((119 - msg.length % 64) % 64) 0 ++ bigEndian 8 (8 * msg.length)

/-- The message schedule: 80 words from the 16 of a block, latest word first. -/
def sha1Schedule : Nat → List Nat → List Nat
  | 0, ws => ws
  | n + 1, ws =>
    sha1Schedule n
      (rotl32 1 (ws.getD 2 0 ^^^ ws.getD 7 0 ^^^ ws.getD 13 0 ^^^ ws.getD 15 0) :: ws)

/-- One of the 80 steps of the compression function. -/
def sha1Step (st : Nat × Nat × Nat × Nat × Nat) (iw : Nat × Nat) : Nat × Nat × Nat × Nat × Nat :=
  let (a, b, c, d, e) := st
  let (i, w) := iw
  let fk : Nat × Nat :=
    if i < 20 then ((b &&& c) ||| ((b ^^^ 0xFFFFFFFF) &&& d), 0x5A827999)
    else if i < 40 then (b ^^^ c ^^^ d, 0x6ED9EBA1)
    else if i < 60 then ((b &&& c) ||| (b &&& d) ||| (c &&& d), 0x8F1BBCDC)
    else (b ^^^ c ^^^ d, 0xCA62C1D6)
  ((rotl32 5 a + fk.1 + e + fk.2 + w) % 2 ^ 32, a, rotl32 30 b, c, d)

/-- The compression function on one 64-byte block. -/
def sha1Block (h : Nat × Nat × Nat × Nat × Nat) (block : Bytes) : Nat × Nat × Nat × Nat × Nat :=
  let ws := (sha1Schedule 64 ((chunks 4 16 block).map ofBigEndian).reverse).reverse
  let (a, b, c, d, e) := (List.range 80).zip ws |>.foldl sha1Step h
  ((h.1 + a) % 2 ^ 32, (h.2.1 + b) % 2 ^ 32, (h.2.2.1 + c) % 2 ^ 32, (h.2.2.2.1 + d) % 2 ^ 32,
    (h.2.2.2.2 + e) % 2 ^ 32)

/-- The five words of the SHA-1 state after the whole padded message. -/
def sha1State (msg : Bytes) : Nat × Nat × Nat × Nat × Nat :=
  (chunks 64 (sha1Pad msg).length (sha1Pad msg)).foldl sha1Block
    (0x67452301, 0xEFCDAB89, 0x98BADCFE, 0x10325476, 0xC3D2E1F0)

/-- SHA-1 (RFC 3174): the 20 bytes of the digest. -/
def sha1 (msg : Bytes) : Bytes :=
  bigEndian 4 (sha1State msg).1 ++ bigEndian 4 (sha1State msg).2.1 ++
    bigEndian 4 (sha1State msg).2.2.1 ++ bigEndian 4 (sha1State msg).2.2.2.1 ++
    bigEndian 4 (sha1State msg).2.2.2.2

/-- HMAC with SHA-1 (RFC 2104), what `hmac.New(sha1.New, key)` computes over the
bytes written to it. -/
def hmacSHA1 (key msg : Bytes) : Bytes :=
  let key := if key.length > 64 then sha1 key else key
  let key := key ++ List.replicate (64 - key.length) 0
  sha1 (key.map (· ^^^ 0x5c) ++ sha1 (key.map (· ^^^ 0x36) ++ msg))

/-! ## JSON documents -/

/-- A JSON document.  `num n` is a number written as the integer `n`; `float lit`
is any other number literal, kept as its text. -/
inductive JSON where
  | null
  | bool (b : Bool)
  | num (n : Int)
  | float (lit : String)
  | str (s : String)
  | arr (xs : List JSON)
  | obj (kvs : List (String × JSON))

/-- The members of a JSON object; the empty list for any other document. -/
def JSON.members : JSON → List (String × JSON)
  | .obj kvs => kvs
  | _ => []

/-- The value under key `k` in a list of members (the first one, when the key is
repeated). -/
def lookupKey {α : Type} (k : String) : List (String × α) → Option α
  | [] => none
  | (k', v) :: rest => if k' = k then some v else lookupKey k rest

/-- The value under key `k` of a JSON object. -/
def JSON.get (j : JSON) (k : String) : Option JSON := lookupKey k j.members

/-- The keys of a JSON object, in document order. -/
def JSON.keys (j : JSON) : List String := j.members.map Prod.fst

/-! ## Go values as `json.Marshal` sees them -/

/-- The Go values handed to `json.Marshal` in this package, including what a
`map[string]interface{}` built by a caller may hold.  A struct is listed field by
field in declaration order, each with its JSON key and its `omitempty` option.  A
map lists its entries in some order, with distinct keys.  A string is given by its
text (`string`) or, when it may hold bytes that are not valid UTF-8, by its bytes
(`rawString`). -/
inductive GoValue where
  | nil
  | bool (b : Bool)
  | int (n : Int)
  | string (s : String)
  | rawString (b : GoString)
  | nilSlice
  | slice (xs : List GoValue)
  | nilMap
  | map (kvs : List (String × GoValue))
  | struct (fields : List (String × Bool × GoValue))
  | chan
  | func

/-- The test `omitempty` applies: false, 0, a nil pointer or interface, and any
empty array, slice, map or string. -/
def GoValue.isEmptyValue : GoValue → Bool
  | .nil => true
  | .bool b => !b
  | .int n => n == 0
  | .string s => s.data.isEmpty
  | .rawString b => b.isEmpty
  | .nilSlice => true
  | .slice xs => xs.isEmpty
  | .nilMap => true
  | .map kvs => kvs.isEmpty
  | _ => false

/-- Bytewise lexicographic order on byte strings, `a ≤ b`. -/
def bytesLE : Bytes → Bytes → Bool
  | [], _ => true
  | _ :: _, [] => false
  | x :: xs, y :: ys => if x < y then true else if y < x then false else bytesLE xs ys

/-- The order in which `json.Marshal` writes the keys of a map. -/
def keyLE (a b : String) : Bool := bytesLE (utf8Bytes a) (utf8Bytes b)

/-- Insert a member into a list of members sorted by key. -/
def insertMember {α : Type} (kv : String × α) : List (String × α) → List (String × α)
  | [] => [kv]
  | m :: rest => if keyLE kv.1 m.1 then kv :: m :: rest else m :: insertMember kv rest

/-- Sort members by key. -/
def sortMembers {α : Type} : List (String × α) → List (String × α)
  | [] => []
  | kv :: rest => insertMember kv (sortMembers rest)

mutual
/-- The document `json.Marshal` produces for a Go value, or the error it returns. -/
def marshalValue : GoValue → Except String JSON
  | .nil => .ok .null
  | .bool b => .ok (.bool b)
  | .int n => .ok (.num n)
  | .string s => .ok (.str s)
  | .rawString b => .ok (.str (toValidUTF8 b))
  | .nilSlice => .ok .null
  | .slice xs =>
    match marshalList xs with
    | .error e => .error e
    | .ok js => .ok (.arr js)
  | .nilMap => .ok .null
  | .map kvs =>
    match marshalEntries kvs with
    | .error e => .error e
    | .ok ms => .ok (.obj (sortMembers ms))
  | .struct fields =>
    match marshalFields fields with
    | .error e => .error e
    | .ok ms => .ok (.obj ms)
  | .chan => .error "json: unsupported type: chan"
  | .func => .error "json: unsupported type: func"
/-- The elements of a slice, marshaled in order. -/
def marshalList : List GoValue → Except String (List JSON)
  | [] => .ok []
  | x :: xs =>
    match marshalValue x with
    | .error e => .error e
    | .ok j =>
      match marshalList xs with
      | .error e => .error e
      | .ok js => .ok (j :: js)
/-- The entries of a map, each value marshaled. -/
def marshalEntries : List (String × GoValue) → Except String (List (String × JSON))
  | [] => .ok []
  | (k, v) :: rest =>
    match marshalValue v with
    | .error e => .error e
    | .ok j =>
      match marshalEntries rest with
      | .error e => .error e
      | .ok ms => .ok ((k, j) :: ms)
/-- The fields of a struct, in declaration order; a field with `omitempty` is left
out when its value is empty. -/
def marshalFields : List (String × Bool × GoValue) → Except String (List (String × JSON))
  | [] => .ok []
  | (k, omitempty, v) :: rest =>
    if omitempty && v.isEmptyValue then marshalFields rest
    else
      match marshalValue v with
      | .error e => .error e
      | .ok j =>
        match marshalFields rest with
        | .error e => .error e
        | .ok ms => .ok ((k, j) :: ms)
end

/-- A `[]string` as a Go value. -/
def GoValue.ofStrings : Slice String → GoValue
  | none => .nilSlice
  | some xs => .slice (xs.map .string)

/-- A `[]string` given by the bytes of its elements, as a Go value. -/
def GoValue.ofGoStrings : Slice GoString → GoValue
  | none => .nilSlice
  | some xs => .slice (xs.map .rawString)

/-- A `[]uint32` as a Go value. -/
def GoValue.ofUint32s : Slice Nat → GoValue
  | none => .nilSlice
  | some xs => .slice (xs.map fun n => .int (Int.ofNat n))

/-- The built-in `append(s, x)`. -/
def sliceAppend {α : Type} (s : Slice α) (x : α) : Slice α :=
  some (s.getD [] ++ [x])

/-! ## Go maps -/

/-- The assignment `m[k] = v` on a map held as a list of entries. -/
def mapSet {α : Type} (k : String) (v : α) : List (String × α) → List (String × α)
  | [] => [(k, v)]
  | (k', v') :: rest => if k' = k then (k, v) :: rest else (k', v') :: mapSet k v rest

/-- A non-nil `map[string][]string` as a Go value. -/
def GoValue.ofStringsMap (m : List (String × Slice String)) : GoValue :=
  .map (m.map fun kv => (kv.1, GoValue.ofStrings kv.2))

/-! ## Data model -/

/-- A Client is the basic type of this package. -/
structure Client where
  APIKey : String
  APISecret : String
  Version : String
  Url : String

/-- One entry of `Domain.NameServers`; a `net.IP` is a byte slice. -/
structure NameServer where
  Fqdn : String
  Ipv4 : Slice Nat
  Ipv6 : Slice Nat

/-- Domain represents a DNS Made Easy domain. -/
structure Domain where
  ActiveThirdParties : Slice String
  Created : Int
  DelegateNameServers : Slice String
  FolderId : Int
  GtdEnabled : Bool
  Id : Nat
  Name : String
  NameServers : Slice NameServer
  PendingActionId : Int
  ProcessMulti : Bool
  Updated : Int

/-- DomainList represents a list of Domains. -/
structure DomainList where
  Domains : Slice Domain
  Page : Int
  TotalPages : Int
  TotalRecords : Int

/-- A Record represents a DNS record (A, CNAME, AAAA, etc.).  The field `Type` of
the source is `Type_` here.  A record is built by the caller, so its strings are
given by their bytes. -/
structure Record where
  DynamicDns : Bool
  Failed : Bool
  Failover : Bool
  GtdLocation : GoString
  HardLink : Bool
  Id : Nat
  Monitor : Bool
  Name : GoString
  Source : Int
  SourceId : Int
  Ttl : Int
  Type_ : GoString
  Value : GoString
  Error : Slice GoString

/-- DomainRecords holds a list of Records associated to a specific Domain; an
element of `Records` is a pointer and may be nil. -/
structure DomainRecords where
  Records : Slice (Option Record)
  Domain : Domain
  Page : Int
  TotalPages : Int
  TotalRecords : Int

/-- Represents an API Error. Code corresponds to the HTTP Status Code returned by
the API. -/
structure APIError where
  Code : Int
  Messages : Slice String

/-- The zero value `Domain{}`. -/
def Domain.zero : Domain :=
  { ActiveThirdParties := none, Created := 0, DelegateNameServers := none, FolderId := 0,
    GtdEnabled := false, Id := 0, Name := "", NameServers := none, PendingActionId := 0,
    ProcessMulti := false, Updated := 0 }

/-- The zero value `DomainList{}`. -/
def DomainList.zero : DomainList :=
  { Domains := none, Page := 0, TotalPages := 0, TotalRecords := 0 }

/-- The zero value `Record{}`. -/
def Record.zero : Record :=
  { DynamicDns := false, Failed := false, Failover := false, GtdLocation := [],
    HardLink := false, Id := 0, Monitor := false, Name := [], Source := 0, SourceId := 0,
    Ttl := 0, Type_ := [], Value := [], Error := none }

/-- The zero value `DomainRecords{}`. -/
def DomainRecords.zero : DomainRecords :=
  { Records := none, Domain := Domain.zero, Page := 0, TotalPages := 0, TotalRecords := 0 }

/-- The zero value `APIError{}`. -/
def APIError.zero : APIError := { Code := 0, Messages := none }

/-- The values of type `error` this package returns, by origin. -/
inductive Error where
  | marshal (msg : String)
  | newRequest (msg : String)
  | transport (msg : String)
  | api (e : APIError)
  | unmarshal (msg : String)

/-- The struct `Record` as `json.Marshal` sees it: the fields in declaration order,
each with the key and the `omitempty` option of its tag. -/
def Record.toGoValue (r : Record) : GoValue :=
  .struct [
    ("DynamicDns", true, .bool r.DynamicDns),
    ("Failed", true, .bool r.Failed),
    ("Failover", true, .bool r.Failover),
    ("gtdLocation", false, .rawString r.GtdLocation),
    ("HardLink", true, .bool r.HardLink),
    ("id", true, .int (Int.ofNat r.Id)),
    ("Monitor", true, .bool r.Monitor),
    ("name", false, .rawString r.Name),
    ("Source", true, .int r.Source),
    ("SourceId", true, .int r.SourceId),
    ("ttl", false, .int r.Ttl),
    ("type", false, .rawString r.Type_),
    ("value", false, .rawString r.Value),
    ("error", true, GoValue.ofGoStrings r.Error)]

/-! ## Decoding JSON documents into the types of this package -/

/-- The first error met while decoding is the one `json.Unmarshal` reports. -/
def firstError (a b : Option String) : Option String :=
  match a with
  | some e => some e
  | none => b

/-- Decode into a `bool`: `null` leaves it alone, anything but a boolean is a type
error and leaves it alone. -/
def decodeBool (j : JSON) (old : Bool) : Bool × Option String :=
  match j with
  | .null => (old, none)
  | .bool b => (b, none)
  | _ => (old, some "json: cannot unmarshal into Go value of type bool")

/-- Decode into a `string`. -/
def decodeString (j : JSON) (old : String) : String × Option String :=
  match j with
  | .null => (old, none)
  | .str s => (s, none)
  | _ => (old, some "json: cannot unmarshal into Go value of type string")

/-- Decode into a `string` given by its bytes: the bytes of the text read. -/
def decodeGoString (j : JSON) (old : GoString) : GoString × Option String :=
  match j with
  | .null => (old, none)
  | .str s => (utf8Bytes s, none)
  | _ => (old, some "json: cannot unmarshal into Go value of type string")

/-- Decode into an `int`: the number must be an integer that fits 64 bits. -/
def decodeInt (j : JSON) (old : Int) : Int × Option String :=
  match j with
  | .null => (old, none)
  | .num n =>
    if -(2 : Int) ^ 63 ≤ n ∧ n < (2 : Int) ^ 63 then (n, none)
    else (old, some "json: cannot unmarshal number into Go value of type int")
  | _ => (old, some "json: cannot unmarshal into Go value of type int")

/-- Decode into a `uint32`. -/
def decodeUint32 (j : JSON) (old : Nat) : Nat × Option String :=
  match j with
  | .null => (old, none)
  | .num n =>
    if 0 ≤ n ∧ n < (2 : Int) ^ 32 then (n.toNat, none)
    else (old, some "json: cannot unmarshal number into Go value of type uint32")
  | _ => (old, some "json: cannot unmarshal into Go value of type uint32")

/-- Decode the elements of an array into a slice whose current elements are `olds`:
element `i` is decoded into the current element `i`, or into a zero value when the
slice is shorter. -/
def decodeElems {α : Type} (dec : JSON → α → α × Option String) (zero : α) :
    List JSON → List α → List α × Option String
  | [], _ => ([], none)
  | j :: js, olds =>
    let r := dec j (olds.headD zero)
    let rs := decodeElems dec zero js olds.tail
    (r.1 :: rs.1, firstError r.2 rs.2)

/-- Decode into a slice: `null` makes it nil, an array replaces its contents. -/
def decodeSlice {α : Type} (dec : JSON → α → α × Option String) (zero : α)
    (j : JSON) (old : Slice α) : Slice α × Option String :=
  match j with
  | .null => (none, none)
  | .arr js =>
    let rs := decodeElems dec zero js (old.getD [])
    (some rs.1, rs.2)
  | _ => (old, some "json: cannot unmarshal into Go value of a slice type")

/-- Case folding of one character of an object key, as used to match keys against
field names made of ASCII characters. -/
def foldChar (ch : Char) : Char :=
  if 97 ≤ ch.toNat ∧ ch.toNat ≤ 122 then Char.ofNat (ch.toNat - 32)
  else if ch.toNat = 0x17F then 'S'
  else if ch.toNat = 0x212A then 'K'
  else ch

/-- Two keys are equal up to case. -/
def foldEq (a b : String) : Bool := a.data.map foldChar == b.data.map foldChar

/-- The field an object key selects: the one with exactly that name, else the
first one equal to it up to case. -/
def findField (names : List String) (key : String) : Option String :=
  if names.contains key then some key else names.find? fun n => foldEq n key

/-- The JSON names of the fields of `Record`, in declaration order. -/
def Record.fieldNames : List String :=
  ["DynamicDns", "Failed", "Failover", "gtdLocation", "HardLink", "id", "Monitor", "name",
   "Source", "SourceId", "ttl", "type", "value", "error"]

/-- Decode one member value into the field of a `Record` with the given JSON name. -/
def Record.setField (name : String) (j : JSON) (r : Record) : Record × Option String :=
  if name = "DynamicDns" then
    let d := decodeBool j r.DynamicDns; ({ r with DynamicDns := d.1 }, d.2)
  else if name = "Failed" then
    let d := decodeBool j r.Failed; ({ r with Failed := d.1 }, d.2)
  else if name = "Failover" then
    let d := decodeBool j r.Failover; ({ r with Failover := d.1 }, d.2)
  else if name = "gtdLocation" then
    let d := decodeGoString j r.GtdLocation; ({ r with GtdLocation := d.1 }, d.2)
  else if name = "HardLink" then
    let d := decodeBool j r.HardLink; ({ r with HardLink := d.1 }, d.2)
  else if name = "id" then
    let d := decodeUint32 j r.Id; ({ r with Id := d.1 }, d.2)
  else if name = "Monitor" then
    let d := decodeBool j r.Monitor; ({ r with Monitor := d.1 }, d.2)
  else if name = "name" then
    let d := decodeGoString j r.Name; ({ r with Name := d.1 }, d.2)
  else if name = "Source" then
    let d := decodeInt j r.Source; ({ r with Source := d.1 }, d.2)
  else if name = "SourceId" then
    let d := decodeInt j r.SourceId; ({ r with SourceId := d.1 }, d.2)
  else if name = "ttl" then
    let d := decodeInt j r.Ttl; ({ r with Ttl := d.1 }, d.2)
  else if name = "type" then
    let d := decodeGoString j r.Type_; ({ r with Type_ := d.1 }, d.2)
  else if name = "value" then
    let d := decodeGoString j r.Value; ({ r with Value := d.1 }, d.2)
  else if name = "error" then
    let d := decodeSlice decodeGoString [] j r.Error; ({ r with Error := d.1 }, d.2)
  else (r, none)

/-- Decode the members of an object into a `Record`, one after the other; a key
that selects no field is skipped. -/
def Record.decodeMembers : List (String × JSON) → Record × Option String → Record × Option String
  | [], acc => acc
  | (k, v) :: rest, acc =>
    match findField Record.fieldNames k with
    | none => Record.decodeMembers rest acc
    | some name =>
      let d := Record.setField name v acc.1
      Record.decodeMembers rest (d.1, firstError acc.2 d.2)

/-- The decoding `json.Unmarshal` performs into a `*Record`. -/
def Record.decode (j : JSON) (r : Record) : Record × Option String :=
  match j with
  | .null => (r, none)
  | .obj kvs => Record.decodeMembers kvs (r, none)
  | _ => (r, some "json: cannot unmarshal into Go value of type dnsmadeeasy.Record")

/-- Decode the members of an object into an `APIError`: the only field with a JSON
name is `Messages`, under `error`; `Code` is tagged `-`. -/
def APIError.decodeMembers : List (String × JSON) → APIError × Option String → APIError × Option String
  | [], acc => acc
  | (k, v) :: rest, acc =>
    match findField ["error"] k with
    | none => APIError.decodeMembers rest acc
    | some _ =>
      let d := decodeSlice decodeString "" v acc.1.Messages
      APIError.decodeMembers rest ({ acc.1 with Messages := d.1 }, firstError acc.2 d.2)

/-- The decoding `json.Unmarshal` performs into an `*APIError`. -/
def APIError.decode (j : JSON) (a : APIError) : APIError × Option String :=
  match j with
  | .null => (a, none)
  | .obj kvs => APIError.decodeMembers kvs (a, none)
  | _ => (a, some "json: cannot unmarshal into Go value of type dnsmadeeasy.APIError")

/-- The decoding `json.Unmarshal` performs into a `*[]uint32`. -/
def decodeUint32s (j : JSON) (ids : Slice Nat) : Slice Nat × Option String :=
  decodeSlice decodeUint32 0 j ids

/-! ## HTTP requests and the collaborators -/

/-- The header of a request: (name, value) pairs in the order they were added,
names in canonical form. -/
abbrev Header := List (String × String)

/-- The canonical form of a header name made of letters, digits and hyphens: the
first letter and every letter after a hyphen in upper case, the others in lower
case. -/
def canonicalChars : Bool → List Char → List Char
  | _, [] => []
  | upper, ch :: rest =>
    let ch' :=
      if upper ∧ 97 ≤ ch.toNat ∧ ch.toNat ≤ 122 then Char.ofNat (ch.toNat - 32)
      else if ¬ upper ∧ 65 ≤ ch.toNat ∧ ch.toNat ≤ 90 then Char.ofNat (ch.toNat + 32)
      else ch
    ch' :: canonicalChars (ch == '-') rest

/-- The canonical form of a header name. -/
def canonicalKey (k : String) : String := String.mk (canonicalChars true k.data)

/-- The method `Header.Add`: append a value under the canonical form of the name. -/
def Header.Add (h : Header) (key value : String) : Header :=
  h ++ [(canonicalKey key, value)]

/-- The method `Header.Values`: all the values under a name, in order. -/
def Header.Values (h : Header) (key : String) : List String :=
  (h.filter fun kv => kv.1 = canonicalKey key).map Prod.snd

/-- The method `Header.Get`: the first value under a name, or the empty string. -/
def Header.Get (h : Header) (key : String) : String :=
  (Header.Values h key).headD ""

/-- An HTTP request: `Body` is `none` when no body reader was given. -/
structure Request where
  Method : String
  URL : String
  Header : Header
  Body : Option Bytes

/-- What `request` looks at in an HTTP response: the status code and the bytes read
from the body. -/
structure Response where
  StatusCode : Int
  Body : Bytes

/-- The collaborators of the client.
* `now` is `time.Now().UTC().Format(time.RFC1123)` at the time of the call.
* `requestError method url` is the error `http.NewRequest` returns for that method
  and URL, `none` when it builds the request.
* `Do` is the HTTP round trip: a response, or a transport error.
* `jsonEncode` writes a JSON document, `jsonParse` reads one (`none` when the
  bytes are not a JSON document).
* `decodeDomain`, `decodeDomainList` and `decodeDomainRecords` are the decodings
  `json.Unmarshal` performs into a `*Domain`, a `*DomainList` and a
  `*DomainRecords`. -/
structure Env where
  now : String
  requestError : String → String → Option String
  Do : Request → Except String Response
  jsonEncode : JSON → Bytes
  jsonParse : Bytes → Option JSON
  decodeDomain : JSON → Domain → Domain × Option String
  decodeDomainList : JSON → DomainList → DomainList × Option String
  decodeDomainRecords : JSON → DomainRecords → DomainRecords × Option String

/-- The call `json.Marshal(v)`. -/
def jsonMarshal (env : Env) (v : GoValue) : Except Error Bytes :=
  match marshalValue v with
  | .error e => .error (.marshal e)
  | .ok doc => .ok (env.jsonEncode doc)

/-- The call `json.Unmarshal(data, object)`, where `object` is nil (`none`) or a
pointer to a value that `dec` decodes into.  The data is checked first; a nil
`object` is an error; otherwise the value is decoded into, and may have been
written to even when an error is returned. -/
def jsonUnmarshal {α : Type} (env : Env) (dec : JSON → α → α × Option String)
    (data : Bytes) (object : Option α) : Option α × Option Error :=
  match env.jsonParse data with
  | none => (object, some (.unmarshal "invalid character"))
  | some doc =>
    match object with
    | none => (none, some (.unmarshal "json: Unmarshal(nil)"))
    | some v =>
      let d := dec doc v
      (some d.1, d.2.map Error.unmarshal)

/-- The call `http.NewRequest(method, url, body)`: a request with an empty header. -/
def NewRequest (env : Env) (method url : String) (body : Option Bytes) : Except Error Request :=
  match env.requestError method url with
  | some msg => .error (.newRequest msg)
  | none => .ok { Method := method, URL := url, Header := [], Body := body }

/-- The result of an operation: the value returned, or the state after the call of
the object that was passed in; the error returned; the requests handed to the
transport. -/
structure Outcome (α : Type) where
  object : α
  err : Option Error
  dispatched : List Request

/-! ## The client -/

/-- The format `apiUrlFmt`, applied to a version. -/
def apiUrlFmt (version : String) : String :=
  "https://api.dnsmadeeasy.com/V" ++ version ++ "/dns/managed/"

/-- The format `sandboxApiUrlFmt`, applied to a version. -/
def sandboxApiUrlFmt (version : String) : String :=
  "https://api.sandbox.dnsmadeeasy.com/V" ++ version ++ "/dns/managed/"

/-- The method `Error` of `*APIError`. -/
def APIError.Error (a : APIError) : String :=
  "API Error. Code:" ++ fmtInt a.Code ++ " Message:" ++ " ".intercalate (a.Messages.getD [])

/-- NewClient returns an instance of Client ready to be used. -/
def NewClient (key secret : String) : Client :=
  { APIKey := key, APISecret := secret, Version := "2.0", Url := apiUrlFmt "2.0" }

/-- The first half of `request`: the authentication headers and `Accept`. -/
def sign (env : Env) (c : Client) (r : Request) : Request :=
  let h1 := Header.Add r.Header "x-dnsme-apikey" c.APIKey
  let requestDate := env.now
  let h2 := Header.Add h1 "x-dnsme-requestdate" requestDate
  let sum := hmacSHA1 (utf8Bytes c.APISecret) (utf8Bytes requestDate)
  let h3 := Header.Add h2 "x-dnsme-hmac" (hexEncode sum)
  let h4 := Header.Add h3 "Accept" "application/json"
  { r with Header := h4 }

/-- The method `request`: it adds the authentication headers, makes the request and
unmarshals the JSON response into `object`. -/
def request {α : Type} (env : Env) (c : Client) (dec : JSON → α → α × Option String)
    (r : Request) (object : Option α) : Outcome (Option α) :=
  let r' := sign env c r
  match env.Do r' with
  | .error msg => { object := object, err := some (.transport msg), dispatched := [r'] }
  | .ok resp =>
    if resp.StatusCode ≥ 400 then
      let apierr := ((jsonUnmarshal env APIError.decode resp.Body (some APIError.zero)).1).getD
        APIError.zero
      { object := object, err := some (.api { apierr with Code := resp.StatusCode }),
        dispatched := [r'] }
    else if resp.Body.length > 0 then
      let u := jsonUnmarshal env dec resp.Body object
      { object := u.1, err := u.2, dispatched := [r'] }
    else { object := object, err := none, dispatched := [r'] }

/-- A decoder for the calls that pass a nil `object`; it is never run. -/
def noDecode (_ : JSON) (u : Unit) : Unit × Option String := (u, none)

/-- CreateDomains creates all the domains passed in its argument.  The ids returned
are the value `ids` holds once `request` has returned. -/
def CreateDomains (env : Env) (c : Client) (domainNames : Slice String) : Outcome (Slice Nat) :=
  let data : List (String × Slice String) := []
  let data := mapSet "names" domainNames data
  match jsonMarshal env (GoValue.ofStringsMap data) with
  | .error e => { object := none, err := some e, dispatched := [] }
  | .ok body =>
    match NewRequest env "POST" c.Url (some body) with
    | .error e => { object := none, err := some e, dispatched := [] }
    | .ok r =>
      let out := request env c decodeUint32s r (some none)
      { object := out.object.getD none, err := out.err, dispatched := out.dispatched }

/-- CreateDomain creates one domain; it returns a pointer to the `Domain` decoded
from the response (`none` is the nil pointer). -/
def CreateDomain (env : Env) (c : Client) (domainName : String) : Outcome (Option Domain) :=
  let data : List (String × Slice String) := []
  let data := mapSet "names" (sliceAppend ((lookupKey "name" data).getD none) domainName) data
  match jsonMarshal env (GoValue.ofStringsMap data) with
  | .error e => { object := none, err := some e, dispatched := [] }
  | .ok body =>
    match NewRequest env "POST" c.Url (some body) with
    | .error e => { object := none, err := some e, dispatched := [] }
    | .ok r => request env c env.decodeDomain r (some Domain.zero)

/-- DeleteDomains deletes the domains with the given ids. -/
def DeleteDomains (env : Env) (c : Client) (ids : Slice Nat) : Outcome Unit :=
  match jsonMarshal env (GoValue.ofUint32s ids) with
  | .error e => { object := (), err := some e, dispatched := [] }
  | .ok body =>
    match NewRequest env "DELETE" c.Url (some body) with
    | .error e => { object := (), err := some e, dispatched := [] }
    | .ok r =>
      let out := request env c noDecode r none
      { object := (), err := out.err, dispatched := out.dispatched }

/-- DeleteDomain deletes one domain. -/
def DeleteDomain (env : Env) (c : Client) (id : Nat) : Outcome Unit :=
  DeleteDomains env c (some [id])

/-- The map `UpdDomains` marshals: `ids` first, then every entry of `fields`, in
the order the `range` loop meets them. -/
def updDomainsData (ids : Slice Nat) (fields : List (String × GoValue)) :
    List (String × GoValue) :=
  fields.foldl (fun data kv => mapSet kv.1 kv.2 data) (mapSet "ids" (GoValue.ofUint32s ids) [])

/-- UpdDomains updates the domains with the given ids.  The error of `json.Marshal`
is overwritten by the one of `http.NewRequest` before it is looked at; when
marshaling fails the body is the nil byte slice. -/
def UpdDomains (env : Env) (c : Client) (ids : Slice Nat) (fields : List (String × GoValue)) :
    Outcome Unit :=
  let data := updDomainsData ids fields
  let body : Bytes :=
    match jsonMarshal env (.map data) with
    | .error _ => []
    | .ok b => b
  match NewRequest env "PUT" c.Url (some body) with
  | .error e => { object := (), err := some e, dispatched := [] }
  | .ok r =>
    let out := request env c noDecode r none
    { object := (), err := out.err, dispatched := out.dispatched }

/-- GetDomains lists the domains. -/
def GetDomains (env : Env) (c : Client) : Outcome (Option DomainList) :=
  match NewRequest env "GET" c.Url none with
  | .error e => { object := none, err := some e, dispatched := [] }
  | .ok r => request env c env.decodeDomainList r (some DomainList.zero)

/-- GetDomainById fetches one domain by id. -/
def GetDomainById (env : Env) (c : Client) (id : Nat) : Outcome (Option Domain) :=
  match NewRequest env "GET" (c.Url ++ fmtUint id) none with
  | .error e => { object := none, err := some e, dispatched := [] }
  | .ok r => request env c env.decodeDomain r (some Domain.zero)

/-- GetDomainByName fetches one domain by name. -/
def GetDomainByName (env : Env) (c : Client) (name : String) : Outcome (Option Domain) :=
  match NewRequest env "GET" (c.Url ++ "name?domainname=" ++ name) none with
  | .error e => { object := none, err := some e, dispatched := [] }
  | .ok r => request env c env.decodeDomain r (some Domain.zero)

/-- GetDomainRecords lists the records of a domain. -/
def GetDomainRecords (env : Env) (c : Client) (id : Nat) : Outcome (Slice (Option Record)) :=
  match NewRequest env "GET" (c.Url ++ fmtUint id ++ "/records") none with
  | .error e => { object := none, err := some e, dispatched := [] }
  | .ok r =>
    let out := request env c env.decodeDomainRecords r (some DomainRecords.zero)
    { object := (out.object.getD DomainRecords.zero).Records, err := out.err,
      dispatched := out.dispatched }

/-- AddRecord adds a record to a domain; `object` is the record after the call.
When `http.NewRequest` fails the method returns `nil`. -/
def AddRecord (env : Env) (c : Client) (domainId : Nat) (record : Record) : Outcome Record :=
  match jsonMarshal env record.toGoValue with
  | .error e => { object := record, err := some e, dispatched := [] }
  | .ok body =>
    match NewRequest env "POST" (c.Url ++ fmtUint domainId ++ "/records") (some body) with
    | .error _ => { object := record, err := none, dispatched := [] }
    | .ok r =>
      let out := request env c Record.decode r (some record)
      { object := out.object.getD record, err := out.err, dispatched := out.dispatched }

/-- DelRecord deletes a record of a domain. -/
def DelRecord (env : Env) (c : Client) (domainId recordId : Nat) : Outcome Unit :=
  match NewRequest env "DELETE"
      (c.Url ++ fmtUint domainId ++ "/records/" ++ fmtUint recordId) none with
  | .error e => { object := (), err := some e, dispatched := [] }
  | .ok r =>
    let out := request env c noDecode r none
    { object := (), err := out.err, dispatched := out.dispatched }

/-- UpdRecord updates a record of a domain; `object` is the record after the call. -/
def UpdRecord (env : Env) (c : Client) (domainId : Nat) (record : Record) : Outcome Record :=
  match jsonMarshal env record.toGoValue with
  | .error e => { object := record, err := some e, dispatched := [] }
  | .ok body =>
    match NewRequest env "PUT"
        (c.Url ++ fmtUint domainId ++ "/records/" ++ fmtUint record.Id) (some body) with
    | .error e => { object := record, err := some e, dispatched := [] }
    | .ok r =>
      let out := request env c Record.decode r (some record)
      { object := out.object.getD record, err := out.err, dispatched := out.dispatched }

/-! ## A concrete environment -/

/-- The escape of a code point below U+10000: a backslash, `u` and four
hexadecimal digits. -/
def escapeU (n : Nat) : List Char :=
  ['\\', 'u', hexDigit (n / 4096 % 16), hexDigit (n / 256 % 16), hexDigit (n / 16 % 16),
    hexDigit (n % 16)]

/-- The characters written for one character of a string literal, in the way
`encoding/json` escapes them. -/
def escapeChar (ch : Char) : List Char :=
  if ch = '"' then ['\\', '"']
  else if ch = '\\' then ['\\', '\\']
  else if ch = '\n' then ['\\', 'n']
  else if ch = '\r' then ['\\', 'r']
  else if ch = '\t' then ['\\', 't']
  else if ch.toNat < 32 ∨ ch = '<' ∨ ch = '>' ∨ ch = '&' ∨ ch.toNat = 0x2028 ∨ ch.toNat = 0x2029
    then escapeU ch.toNat
  else [ch]

/-- The characters of a JSON string literal, without the quotes. -/
def escapeChars : List Char → List Char
  | [] => []
  | ch :: rest => escapeChar ch ++ escapeChars rest

/-- The value of a hexadecimal digit of either case. -/
def hexAny (ch : Char) : Option Nat :=
  if 48 ≤ ch.toNat ∧ ch.toNat ≤ 57 then some (ch.toNat - 48)
  else if 97 ≤ ch.toNat ∧ ch.toNat ≤ 102 then some (ch.toNat - 87)
  else if 65 ≤ ch.toNat ∧ ch.toNat ≤ 70 then some (ch.toNat - 55)
  else none

/-- The character a one-letter escape stands for. -/
def simpleEscape (ch : Char) : Option Char :=
  if ch = '"' then some '"'
  else if ch = '\\' then some '\\'
  else if ch = '/' then some '/'
  else if ch = 'b' then some (Char.ofNat 8)
  else if ch = 'f' then some (Char.ofNat 12)
  else if ch = 'n' then some '\n'
  else if ch = 'r' then some '\r'
  else if ch = 't' then some '\t'
  else none

/-- The character for the code unit of a `\u` escape that is not part of a pair: a
surrogate becomes U+FFFD. -/
def unitChar (v : Nat) : Char :=
  if 0xD800 ≤ v ∧ v ≤ 0xDFFF then Char.ofNat 0xFFFD else Char.ofNat v

/-- The characters read so far once a pending high surrogate turns out to be alone. -/
def flushPending (pending : Option Nat) (acc : List Char) : List Char :=
  match pending with
  | some _ => Char.ofNat 0xFFFD :: acc
  | none => acc

/-- Take in the code unit `v` of a `\u` escape. -/
def addUnit (pending : Option Nat) (v : Nat) (acc : List Char) : Option Nat × List Char :=
  match pending with
  | some hi =>
    if 0xDC00 ≤ v ∧ v ≤ 0xDFFF then
      (none, Char.ofNat (0x10000 + (hi - 0xD800) * 1024 + (v - 0xDC00)) :: acc)
    else if 0xD800 ≤ v ∧ v ≤ 0xDBFF then (some v, Char.ofNat 0xFFFD :: acc)
    else (none, unitChar v :: Char.ofNat 0xFFFD :: acc)
  | none => if 0xD800 ≤ v ∧ v ≤ 0xDBFF then (some v, acc) else (none, unitChar v :: acc)

/-- Where the reader stands inside a string literal: between characters, after a
backslash, or inside a `\u` escape after `count` digits of value `value`. -/
inductive StrState where
  | normal
  | escape
  | hex (count : Nat) (value : Nat)

/-- Read a string literal after its opening quote.  `pending` is a high surrogate
read from a `\u` escape and not yet paired; `acc` holds the characters read so
far, last first. -/
def readString : List Char → StrState → Option Nat → List Char → Option (String × List Char)
  | [], _, _, _ => none
  | ch :: rest, .normal, pending, acc =>
    if ch = '\\' then readString rest .escape pending acc
    else if ch = '"' then some (String.mk (flushPending pending acc).reverse, rest)
    else if ch.toNat < 32 then none
    else readString rest .normal none (ch :: flushPending pending acc)
  | ch :: rest, .escape, pending, acc =>
    if ch = 'u' then readString rest (.hex 0 0) pending acc
    else
      match simpleEscape ch with
      | some c => readString rest .normal none (c :: flushPending pending acc)
      | none => none
  | ch :: rest, .hex count value, pending, acc =>
    match hexAny ch with
    | none => none
    | some d =>
      if count = 3 then
        readString rest .normal (addUnit pending (value * 16 + d) acc).1
          (addUnit pending (value * 16 + d) acc).2
      else readString rest (.hex (count + 1) (value * 16 + d)) pending acc

mutual
/-- A compact text for a JSON document. -/
def renderChars : JSON → List Char
  | .null => ['n', 'u', 'l', 'l']
  | .bool b => if b then ['t', 'r', 'u', 'e'] else ['f', 'a', 'l', 's', 'e']
  | .num n => intChars n
  | .float lit => lit.data
  | .str s => '"' :: (escapeChars s.data ++ ['"'])
  | .arr xs => '[' :: (renderElems xs ++ [']'])
  | .obj kvs => '\x7b' :: (renderMembers kvs ++ ['\x7d'])
/-- The elements of an array, separated by commas. -/
def renderElems : List JSON → List Char
  | [] => []
  | [x] => renderChars x
  | x :: y :: rest => renderChars x ++ ',' :: renderElems (y :: rest)
/-- The members of an object, separated by commas. -/
def renderMembers : List (String × JSON) → List Char
  | [] => []
  | [(k, v)] => '"' :: (escapeChars k.data ++ '"' :: ':' :: renderChars v)
  | (k, v) :: m :: rest =>
    '"' :: (escapeChars k.data ++ '"' :: ':' :: (renderChars v ++ ',' :: renderMembers (m :: rest)))
end

/-- The compact text of a JSON document, as a string. -/
def renderJSON (doc : JSON) : String := String.mk (renderChars doc)

/-- JSON white space. -/
def isWS (ch : Char) : Bool := ch = ' ' || ch = '\n' || ch = '\r' || ch = '\t'

/-- Skip JSON white space. -/
def skipWS : List Char → List Char
  | [] => []
  | ch :: rest => if isWS ch then skipWS rest else ch :: rest

/-- Drop the characters `lit` from the front of a text; `none` when the text does
not begin with them. -/
def dropLit : List Char → List Char → Option (List Char)
  | [], cs => some cs
  | _ :: _, [] => none
  | l :: lit, ch :: cs => if l = ch then dropLit lit cs else none

/-- A decimal digit. -/
def isDigit (ch : Char) : Bool := 48 ≤ ch.toNat && ch.toNat ≤ 57

/-- Split off the longest run of characters satisfying `p`. -/
def spanChars (p : Char → Bool) : List Char → List Char × List Char
  | [] => ([], [])
  | ch :: rest => if p ch then (ch :: (spanChars p rest).1, (spanChars p rest).2) else ([], ch :: rest)

/-- The number a run of decimal digits writes. -/
def digitsValue (cs : List Char) : Nat := (readDigits cs (some 0)).getD 0

/-- Read a number: an optional minus sign, an integer part without a superfluous
leading zero, an optional fraction and an optional exponent.  An integer literal
other than `-0` is a `num`, any other literal a `float`. -/
def readNumber (cs : List Char) : Option (JSON × List Char) :=
  let neg : Bool := cs.head? = some '-'
  let cs1 := if neg then cs.tail else cs
  let ip := spanChars isDigit cs1
  if ip.1 = [] ∨ (ip.1.head? = some '0' ∧ ip.1.length > 1) then none
  else
    let fp : Option (List Char × List Char) :=
      if ip.2.head? = some '.' then
        (if (spanChars isDigit ip.2.tail).1 = [] then none
         else some ('.' :: (spanChars isDigit ip.2.tail).1, (spanChars isDigit ip.2.tail).2))
      else some ([], ip.2)
    match fp with
    | none => none
    | some (fr, r1) =>
      let ep : Option (List Char × List Char) :=
        if r1.head? = some 'e' ∨ r1.head? = some 'E' then
          (let sg : List Char × List Char :=
            if r1.tail.head? = some '+' ∨ r1.tail.head? = some '-' then
              (r1.tail.take 1, r1.tail.tail)
            else ([], r1.tail)
           if (spanChars isDigit sg.2).1 = [] then none
           else some (r1.take 1 ++ sg.1 ++ (spanChars isDigit sg.2).1, (spanChars isDigit sg.2).2))
        else some ([], r1)
      match ep with
      | none => none
      | some (ex, r2) =>
        if fr = [] ∧ ex = [] ∧ ¬ (neg = true ∧ ip.1 = ['0']) then
          some (.num (if neg then -(Int.ofNat (digitsValue ip.1)) else Int.ofNat (digitsValue ip.1)),
            r2)
        else some (.float (String.mk ((if neg then ['-'] else []) ++ ip.1 ++ fr ++ ex)), r2)

mutual
/-- Read one JSON value; `fuel` bounds the nesting and the number of elements. -/
def parseValue : Nat → List Char → Option (JSON × List Char)
  | 0, _ => none
  | fuel + 1, cs =>
    match skipWS cs with
    | [] => none
    | ch :: rest =>
      if ch = 'n' then (dropLit ['u', 'l', 'l'] rest).map fun r => (JSON.null, r)
      else if ch = 't' then (dropLit ['r', 'u', 'e'] rest).map fun r => (JSON.bool true, r)
      else if ch = 'f' then (dropLit ['a', 'l', 's', 'e'] rest).map fun r => (JSON.bool false, r)
      else if ch = '"' then (readString rest .normal none []).map fun sr => (JSON.str sr.1, sr.2)
      else if ch = '[' then
        match skipWS rest with
        | [] => none
        | d :: r =>
          if d = ']' then some (.arr [], r)
          else (parseElems fuel (d :: r)).map fun xr => (JSON.arr xr.1, xr.2)
      else if ch = '\x7b' then
        match skipWS rest with
        | [] => none
        | d :: r =>
          if d = '\x7d' then some (.obj [], r)
          else (parseMembers fuel (d :: r)).map fun xr => (JSON.obj xr.1, xr.2)
      else readNumber (ch :: rest)
/-- Read the elements of a non-empty array up to its closing bracket. -/
def parseElems : Nat → List Char → Option (List JSON × List Char)
  | 0, _ => none
  | fuel + 1, cs =>
    match parseValue fuel cs with
    | none => none
    | some (v, rest) =>
      match skipWS rest with
      | [] => none
      | d :: r =>
        if d = ',' then (parseElems fuel r).map fun xr => (v :: xr.1, xr.2)
        else if d = ']' then some ([v], r)
        else none
/-- Read the members of a non-empty object up to its closing brace. -/
def parseMembers : Nat → List Char → Option (List (String × JSON) × List Char)
  | 0, _ => none
  | fuel + 1, cs =>
    match skipWS cs with
    | [] => none
    | q :: rest =>
      if q = '"' then
        match readString rest .normal none [] with
        | none => none
        | some (k, r1) =>
          match skipWS r1 with
          | [] => none
          | c :: r2 =>
            if c = ':' then
              match parseValue fuel r2 with
              | none => none
              | some (v, r3) =>
                match skipWS r3 with
                | [] => none
                | d :: r4 =>
                  if d = ',' then (parseMembers fuel r4).map fun xr => ((k, v) :: xr.1, xr.2)
                  else if d = '\x7d' then some ([(k, v)], r4)
                  else none
            else none
      else none
end

/-- Read a text that holds exactly one JSON document. -/
def parseText (cs : List Char) : Option JSON :=
  match parseValue (cs.length + 1) cs with
  | some (v, rest) => if skipWS rest = [] then some v else none
  | none => none

mutual
/-- No number of the document is written with a fraction or an exponent. -/
def JSON.noFloat : JSON → Bool
  | .float _ => false
  | .arr xs => noFloatList xs
  | .obj kvs => noFloatMembers kvs
  | _ => true
/-- No element has a `float`. -/
def noFloatList : List JSON → Bool
  | [] => true
  | x :: xs => x.noFloat && noFloatList xs
/-- No member has a `float`. -/
def noFloatMembers : List (String × JSON) → Bool
  | [] => true
  | (_, v) :: kvs => v.noFloat && noFloatMembers kvs
end

mutual
/-- The number of values, elements and members of a document: fuel enough to read it. -/
def JSON.size : JSON → Nat
  | .arr xs => 1 + sizeList xs
  | .obj kvs => 1 + sizeMembers kvs
  | _ => 1
/-- The size of the elements of an array. -/
def sizeList : List JSON → Nat
  | [] => 0
  | x :: xs => 1 + x.size + sizeList xs
/-- The size of the members of an object. -/
def sizeMembers : List (String × JSON) → Nat
  | [] => 0
  | (_, v) :: kvs => 1 + v.size + sizeMembers kvs
end

/-- What may follow a value: nothing, a comma, or a closing bracket or brace. -/
def okRest (rest : List Char) : Prop :=
  rest.head? = none ∨ rest.head? = some ',' ∨ rest.head? = some ']' ∨ rest.head? = some '\x7d'

/-- The body of an error response used in the examples. -/
def exampleErrorBody : Bytes := utf8Bytes "\x7b\"error\":[\"Rate limit exceeded\"]\x7d"

/-- An environment for the examples.  The clock is stopped, `http.NewRequest`
rejects a URL that begins with a colon (it has no scheme), the transport answers
every request with `resp`, documents are written by `renderJSON` and
read by `parseText`, and nothing is decoded into the domain types. -/
def exampleEnv (resp : Response) : Env :=
  { now := "Wed, 04 Nov 2026 10:32:00 UTC"
    requestError := fun _ url =>
      if url.data.head? = some ':' then some "parse: missing protocol scheme" else none
    Do := fun _ => .ok resp
    jsonEncode := fun doc => utf8Bytes (renderJSON doc)
    jsonParse := fun b => parseText (toValidUTF8 b).data
    decodeDomain := fun _ d => (d, none)
    decodeDomainList := fun _ d => (d, none)
    decodeDomainRecords := fun _ d => (d, none) }

/-- The client of the examples, set up as in the tests: version 2.0 with the URL
of `sandboxApiUrlFmt`. -/
def exampleClient : Client :=
  { APIKey := "key", APISecret := "secret", Version := "2.0", Url := sandboxApiUrlFmt "2.0" }

/-- The record of `TestAddRecord`. -/
def exampleRecord : Record :=
  { Record.zero with
    Name := utf8Bytes "a-record", Value := utf8Bytes "127.0.0.1", Type_ := utf8Bytes "A",
    Ttl := 60, GtdLocation := utf8Bytes "DEFAULT" }

/-! ## Documents written for the values of this package -/

/-- The document for a `[]string`. -/
def stringsDoc : Slice String → JSON
  | none => .null
  | some xs => .arr (xs.map .str)

/-- The document for a `[]string` given by the bytes of its elements. -/
def goStringsDoc : Slice GoString → JSON
  | none => .null
  | some xs => .arr (xs.map fun b => .str (toValidUTF8 b))

/-- The bytes of a Go string after it was written to JSON and read back: the string
coerced to valid UTF-8. -/
def coerceUTF8 (b : GoString) : GoString := utf8Bytes (toValidUTF8 b)

/-- A Go string is valid UTF-8 when its bytes are the encoding of some text. -/
def validUTF8 (b : GoString) : Prop := ∃ s : String, b = utf8Bytes s

/-- The document for a `[]uint32`. -/
def uint32sDoc : Slice Nat → JSON
  | none => .null
  | some xs => .arr (xs.map fun n => .num (Int.ofNat n))

/-- The document `json.Marshal` writes for a value, `null` when it fails. -/
def docOf (v : GoValue) : JSON :=
  match marshalValue v with
  | .ok j => j
  | .error _ => .null

/-- The members a struct field contributes to the object of its struct: none when
it has `omitempty` and is empty, one otherwise. -/
def fieldMembers (f : String × Bool × GoValue) : List (String × JSON) :=
  if f.2.1 && f.2.2.isEmptyValue then [] else [(f.1, docOf f.2.2)]

/-- The machine ranges of the integer fields of a `Record`: `uint32` for `Id`,
`int` (64 bits) for `Source`, `SourceId` and `Ttl`. -/
def Record.inRange (r : Record) : Prop :=
  r.Id < 2 ^ 32 ∧
  (-(2 : Int) ^ 63 ≤ r.Source ∧ r.Source < (2 : Int) ^ 63) ∧
  (-(2 : Int) ^ 63 ≤ r.SourceId ∧ r.SourceId < (2 : Int) ^ 63) ∧
  (-(2 : Int) ^ 63 ≤ r.Ttl ∧ r.Ttl < (2 : Int) ^ 63)

instance (r : Record) : Decidable r.inRange := by
  unfold Record.inRange
  infer_instance

/-- The record of `TestAddRecord` with the one-byte name `"\xff"`, which is not valid
UTF-8. -/
def invalidNameRecord : Record := { exampleRecord with Name := [0xFF] }

/-- A request without its header: method, URL and body. -/
def Request.line (q : Request) : String × String × Option Bytes := (q.Method, q.URL, q.Body)

/-- A client whose base URL has no scheme. -/
def brokenClient : Client :=
  { APIKey := "key", APISecret := "secret", Version := "2.0", Url := ":" }

/-- The members of the object `UpdDomains` marshals when every value can be
serialized: one per entry of the map, sorted by key. -/
def updDomainsMembers (ids : Slice Nat) (fields : List (String × GoValue)) :
    List (String × JSON) :=
  sortMembers ((updDomainsData ids fields).map fun kv => (kv.1, docOf kv.2))

/-! ## UTF-8 -/

theorem decodeRune_encodeRune (n : Nat) (h : n < 0xD800 ∨ (0xDFFF < n ∧ n < 0x110000))
    (rest : Bytes) : decodeRune (encodeRune n ++ rest) = (n, (encodeRune n).length) := by
  unfold encodeRune
  by_cases h1 : n < 0x80
  · simp [h1, decodeRune]
  · by_cases h2 : n < 0x800
    · have a1 : ¬ (0xC0 + n / 64 < 0x80) := by omega
      have a2 : 0xC2 ≤ 0xC0 + n / 64 ∧ 0xC0 + n / 64 ≤ 0xDF := by omega
      have a3 : (0x80 ≤ 0x80 + n % 64 ∧ 0x80 + n % 64 ≤ 0xBF) := by omega
      simp only [h1, h2, if_false, if_true, List.cons_append, List.nil_append, decodeRune, isCont,
        a1, a2, a3, and_self, decide_True, Bool.and_self, List.length_cons, List.length_nil]
      congr 1
      omega
    · by_cases h3 : n < 0x10000
      · have a1 : ¬ (0xE0 + n / 4096 < 0x80) := by omega
        have a2 : ¬ (0xC2 ≤ 0xE0 + n / 4096 ∧ 0xE0 + n / 4096 ≤ 0xDF) := by omega
        have a3 : 0xE0 ≤ 0xE0 + n / 4096 ∧ 0xE0 + n / 4096 ≤ 0xEF := by omega
        have a4 : (if 0xE0 + n / 4096 = 0xE0 then 0xA0 else 0x80) ≤ 0x80 + n / 64 % 64 ∧
            0x80 + n / 64 % 64 ≤ (if 0xE0 + n / 4096 = 0xED then 0x9F else 0xBF) ∧
            (0x80 ≤ 0x80 + n % 64 ∧ 0x80 + n % 64 ≤ 0xBF) := by
          split_ifs <;> omega
        simp only [h1, h2, h3, if_false, if_true, List.cons_append, List.nil_append, decodeRune,
          isCont, a1, a2, a3, a4, and_self, decide_True, Bool.and_self, List.length_cons,
          List.length_nil]
        congr 1
        omega
      · have a1 : ¬ (0xF0 + n / 262144 < 0x80) := by omega
        have a2 : ¬ (0xC2 ≤ 0xF0 + n / 262144 ∧ 0xF0 + n / 262144 ≤ 0xDF) := by omega
        have a3 : ¬ (0xE0 ≤ 0xF0 + n / 262144 ∧ 0xF0 + n / 262144 ≤ 0xEF) := by omega
        have a4 : 0xF0 ≤ 0xF0 + n / 262144 ∧ 0xF0 + n / 262144 ≤ 0xF4 := by omega
        have a5 : (if 0xF0 + n / 262144 = 0xF0 then 0x90 else 0x80) ≤ 0x80 + n / 4096 % 64 ∧
            0x80 + n / 4096 % 64 ≤ (if 0xF0 + n / 262144 = 0xF4 then 0x8F else 0xBF) ∧
            (0x80 ≤ 0x80 + n / 64 % 64 ∧ 0x80 + n / 64 % 64 ≤ 0xBF) ∧
            (0x80 ≤ 0x80 + n % 64 ∧ 0x80 + n % 64 ≤ 0xBF) := by
          split_ifs <;> omega
        simp only [h1, h2, h3, if_false, if_true, List.cons_append, List.nil_append, decodeRune,
          isCont, a1, a2, a3, a4, a5, and_self, decide_True, Bool.and_self, List.length_cons,
          List.length_nil]
        congr 1
        omega

theorem encodeRune_length_pos (n : Nat) : 0 < (encodeRune n).length := by
  unfold encodeRune
  split_ifs <;> simp

theorem char_toNat_scalar (c : Char) : c.toNat < 0xD800 ∨ (0xDFFF < c.toNat ∧ c.toNat < 0x110000) :=
  c.valid

theorem decodeRunes_utf8 (cs : List Char) (rest : Bytes) :
    ∀ fuel, cs.length + rest.length ≤ fuel →
      decodeRunes fuel ((cs.flatMap fun ch => encodeRune ch.toNat) ++ rest) =
        cs.map Char.toNat ++ decodeRunes (fuel - cs.length) rest := by
  induction cs with
  | nil => intro fuel _; simp
  | cons c cs ih =>
    intro fuel hf
    obtain ⟨fuel, rfl⟩ : ∃ k, fuel = k + 1 := ⟨fuel - 1, by simp at hf; omega⟩
    have hpos := encodeRune_length_pos c.toNat
    have hne : ((encodeRune c.toNat ++ (cs.flatMap fun ch => encodeRune ch.toNat)) ++ rest).isEmpty
        = false := by
      cases hE : encodeRune c.toNat with
      | nil => rw [hE] at hpos; simp at hpos
      | cons x xs => simp
    simp only [List.flatMap_cons, decodeRunes, hne, Bool.false_eq_true, if_false, List.map_cons,
      List.cons_append]
    rw [List.append_assoc, decodeRune_encodeRune c.toNat (char_toNat_scalar c)]
    simp only [List.drop_left]
    rw [ih fuel (by simp at hf; omega)]
    simp

theorem toValidUTF8_utf8Bytes (s : String) : toValidUTF8 (utf8Bytes s) = s := by
  unfold toValidUTF8 utf8Bytes
  have h := decodeRunes_utf8 s.data [] ((s.data.flatMap fun ch => encodeRune ch.toNat).length)
    (by
      simp only [List.length_nil, Nat.add_zero]
      induction s.data with
      | nil => simp
      | cons c cs ih =>
        have := encodeRune_length_pos c.toNat
        simp only [List.flatMap_cons, List.length_append, List.length_cons]
        omega)
  rw [List.append_nil] at h
  rw [h]
  have hd : decodeRunes ((s.data.flatMap fun ch => encodeRune ch.toNat).length - s.data.length) [] = [] := by
    cases ((s.data.flatMap fun ch => encodeRune ch.toNat).length - s.data.length) <;> simp [decodeRunes]
  rw [hd, List.append_nil, List.map_map]
  have : (Char.ofNat ∘ Char.toNat) = id := by
    funext c
    simp [Char.ofNat_toNat]
  rw [this, List.map_id]

theorem coerceUTF8_of_valid (b : GoString) (h : validUTF8 b) : coerceUTF8 b = b := by
  obtain ⟨s, rfl⟩ := h
  rw [coerceUTF8, toValidUTF8_utf8Bytes]

/-! ## Properties of `json.Marshal` -/

theorem marshalList_strings (xs : List String) :
    marshalList (xs.map GoValue.string) = .ok (xs.map JSON.str) := by
  induction xs with
  | nil => simp [marshalList]
  | cons x xs ih => simp [marshalList, marshalValue, ih]

theorem marshalList_uint32s (xs : List Nat) :
    marshalList (xs.map fun n => GoValue.int (Int.ofNat n)) =
      .ok (xs.map fun n => JSON.num (Int.ofNat n)) := by
  induction xs with
  | nil => simp only [List.map_nil, marshalList]
  | cons x xs ih => simp only [List.map_cons, marshalList, marshalValue, ih]

theorem marshalValue_ofStrings (s : Slice String) :
    marshalValue (GoValue.ofStrings s) = .ok (stringsDoc s) := by
  cases s with
  | none => simp [GoValue.ofStrings, marshalValue, stringsDoc]
  | some xs => simp [GoValue.ofStrings, marshalValue, stringsDoc, marshalList_strings]

theorem marshalList_goStrings (xs : List GoString) :
    marshalList (xs.map GoValue.rawString) = .ok (xs.map fun b => JSON.str (toValidUTF8 b)) := by
  induction xs with
  | nil => simp [marshalList]
  | cons x xs ih => simp [marshalList, marshalValue, ih]

theorem marshalValue_ofGoStrings (s : Slice GoString) :
    marshalValue (GoValue.ofGoStrings s) = .ok (goStringsDoc s) := by
  cases s with
  | none => simp [GoValue.ofGoStrings, marshalValue, goStringsDoc]
  | some xs => simp [GoValue.ofGoStrings, marshalValue, goStringsDoc, marshalList_goStrings]

theorem marshalValue_ofUint32s (s : Slice Nat) :
    marshalValue (GoValue.ofUint32s s) = .ok (uint32sDoc s) := by
  cases s with
  | none => simp [GoValue.ofUint32s, marshalValue, uint32sDoc]
  | some xs => simp only [GoValue.ofUint32s, marshalValue, uint32sDoc, marshalList_uint32s]

theorem marshalFields_of_ok (fields : List (String × Bool × GoValue))
    (h : ∀ f ∈ fields, ∃ j, marshalValue f.2.2 = .ok j) :
    marshalFields fields = .ok (fields.flatMap fieldMembers) := by
  induction fields with
  | nil => simp [marshalFields]
  | cons f rest ih =>
    obtain ⟨k, o, v⟩ := f
    obtain ⟨j, hj⟩ := h (k, o, v) (List.mem_cons_self _ _)
    have hrest := ih fun g hg => h g (List.mem_cons_of_mem _ hg)
    by_cases hc : (o && v.isEmptyValue) = true
    · simp [marshalFields, hc, hrest, fieldMembers]
    · simp [marshalFields, hc, hrest, fieldMembers, hj, docOf]

theorem Record.marshal_eq (r : Record) :
    marshalValue r.toGoValue =
      .ok (.obj ((match r.toGoValue with
        | .struct fields => fields
        | _ => []).flatMap fieldMembers)) := by
  simp only [Record.toGoValue, marshalValue]
  rw [marshalFields_of_ok]
  intro f hf
  simp only [List.mem_cons, List.mem_singleton, List.not_mem_nil, or_false] at hf
  rcases hf with h | h | h | h | h | h | h | h | h | h | h | h | h | h <;> subst h <;>
    first
    | exact ⟨_, marshalValue_ofGoStrings _⟩
    | exact ⟨_, rfl⟩

/-! ## Properties of `request` -/

theorem request_dispatched {α : Type} (env : Env) (c : Client)
    (dec : JSON → α → α × Option String) (r : Request) (object : Option α) :
    (request env c dec r object).dispatched = [sign env c r] := by
  simp only [request]
  cases env.Do (sign env c r) with
  | error msg => rfl
  | ok resp =>
    simp only []
    split_ifs <;> rfl

theorem request_of_error_status {α : Type} (env : Env) (c : Client)
    (dec : JSON → α → α × Option String) (r : Request) (object : Option α) (resp : Response)
    (hDo : env.Do (sign env c r) = .ok resp) (hs : resp.StatusCode ≥ 400) :
    ∃ msgs : Slice String,
      request env c dec r object =
        { object := object, err := some (.api { Code := resp.StatusCode, Messages := msgs }),
          dispatched := [sign env c r] } := by
  simp only [request, hDo, if_pos hs]
  exact ⟨_, rfl⟩

theorem request_of_empty_body {α : Type} (env : Env) (c : Client)
    (dec : JSON → α → α × Option String) (r : Request) (object : Option α) (resp : Response)
    (hDo : env.Do (sign env c r) = .ok resp) (hs : resp.StatusCode < 400)
    (hb : resp.Body = []) :
    request env c dec r object =
      { object := object, err := none, dispatched := [sign env c r] } := by
  simp only [request, hDo, if_neg (not_le.mpr hs), hb]
  rfl

theorem jsonUnmarshal_nil_err {α : Type} (env : Env) (dec : JSON → α → α × Option String)
    (data : Bytes) : (jsonUnmarshal env dec data none).2 ≠ none := by
  unfold jsonUnmarshal
  cases env.jsonParse data <;> simp

theorem request_nil_err_iff {α : Type} (env : Env) (c : Client)
    (dec : JSON → α → α × Option String) (r : Request) (resp : Response)
    (hDo : env.Do (sign env c r) = .ok resp) (hs : resp.StatusCode < 400) :
    (request env c dec r none).err = none ↔ resp.Body = [] := by
  constructor
  · intro h
    by_contra hb
    have hlen : resp.Body.length > 0 := List.length_pos.mpr hb
    simp only [request, hDo, if_neg (not_le.mpr hs), if_pos hlen] at h
    exact jsonUnmarshal_nil_err env dec resp.Body h
  · intro hb
    rw [request_of_empty_body env c dec r none resp hDo hs hb]

theorem NewRequest_ok (env : Env) (method url : String) (body : Option Bytes)
    (h : env.requestError method url = none) :
    NewRequest env method url body =
      .ok { Method := method, URL := url, Header := [], Body := body } := by
  unfold NewRequest
  rw [h]

theorem NewRequest_header (env : Env) (method url : String) (body : Option Bytes) (r : Request)
    (h : NewRequest env method url body = .ok r) : r.Header = [] := by
  unfold NewRequest at h
  cases hE : env.requestError method url with
  | some msg => rw [hE] at h; cases h
  | none => rw [hE] at h; cases h; rfl

theorem exampleEnv_accepts (resp : Response) (method sfx : String) :
    (exampleEnv resp).requestError method (exampleClient.Url ++ sfx) = none := by
  simp [exampleEnv, exampleClient, sandboxApiUrlFmt]

theorem exampleEnv_accepts_base (resp : Response) (method : String) :
    (exampleEnv resp).requestError method exampleClient.Url = none := by
  simp [exampleEnv, exampleClient, sandboxApiUrlFmt]

theorem requestError_base (env : Env) (c : Client)
    (hReq : ∀ m sfx, env.requestError m (c.Url ++ sfx) = none) (m : String) :
    env.requestError m c.Url = none := by
  have h := hReq m ""
  simpa using h

theorem Record.marshal_ok (r : Record) :
    marshalValue r.toGoValue = .ok (docOf r.toGoValue) := by
  rw [docOf, Record.marshal_eq]

theorem jsonMarshal_record (env : Env) (r : Record) :
    jsonMarshal env r.toGoValue = .ok (env.jsonEncode (docOf r.toGoValue)) := by
  rw [jsonMarshal, Record.marshal_ok]

theorem createDomains_doc (names : Slice String) :
    marshalValue (GoValue.ofStringsMap (mapSet "names" names [])) =
      .ok (.obj [("names", stringsDoc names)]) := by
  simp only [GoValue.ofStringsMap, mapSet, List.map_cons, List.map_nil]
  rw [marshalValue, marshalEntries, marshalValue_ofStrings, marshalEntries]
  rfl

theorem createDomain_doc (domainName : String) :
    marshalValue (GoValue.ofStringsMap
      (mapSet "names" (sliceAppend ((lookupKey "name" []).getD none) domainName) [])) =
      .ok (.obj [("names", .arr [.str domainName])]) := by
  rw [createDomains_doc]
  rfl

/-! ## The claims about `request` -/

/-- C1: for every response whose status code is at least 400, whatever its body
and however the body parses, `request` returns an `*APIError` whose `Code` is that
status code, and the object passed in is left as it was. -/
theorem error_status_returns_api_error {α : Type} (env : Env) (c : Client)
    (dec : JSON → α → α × Option String) (r : Request) (object : Option α) (resp : Response)
    (hDo : env.Do (sign env c r) = .ok resp) (hs : resp.StatusCode ≥ 400) :
    (∃ msgs : Slice String,
      (request env c dec r object).err =
        some (.api { Code := resp.StatusCode, Messages := msgs })) ∧
    (request env c dec r object).object = object := by
  obtain ⟨msgs, h⟩ := request_of_error_status env c dec r object resp hDo hs
  rw [h]
  exact ⟨⟨msgs, rfl⟩, rfl⟩

/-- An instance of C1: status 429 with a JSON error body, a `Record` as target. -/
theorem error_status_returns_api_error_witness :
    (∃ msgs : Slice String,
      (request (exampleEnv ⟨429, exampleErrorBody⟩) exampleClient Record.decode
        ⟨"POST", exampleClient.Url, [], none⟩ (some exampleRecord)).err =
        some (.api { Code := 429, Messages := msgs })) ∧
    (request (exampleEnv ⟨429, exampleErrorBody⟩) exampleClient Record.decode
        ⟨"POST", exampleClient.Url, [], none⟩ (some exampleRecord)).object =
      some exampleRecord :=
  error_status_returns_api_error (exampleEnv ⟨429, exampleErrorBody⟩) exampleClient
    Record.decode ⟨"POST", exampleClient.Url, [], none⟩ (some exampleRecord)
    ⟨429, exampleErrorBody⟩ rfl (by decide)

/-- C3: for every response with a status code below 400 and an empty body,
`request` returns nil and leaves the object passed in untouched; the operations that
allocate their result return its zero value (a nil slice for the id list and the
record list, a pointer to a zero `Domain` or `DomainList`), and the record passed
to `AddRecord` or `UpdRecord` is unchanged. -/
theorem empty_success_leaves_result_untouched (env : Env) (c : Client) (resp : Response)
    (hDo : ∀ q, env.Do q = .ok resp)
    (hReq : ∀ m sfx, env.requestError m (c.Url ++ sfx) = none)
    (hs : resp.StatusCode < 400) (hb : resp.Body = []) :
    (∀ (α : Type) (dec : JSON → α → α × Option String) (r : Request) (object : Option α),
      (request env c dec r object).err = none ∧ (request env c dec r object).object = object) ∧
    (∀ names, (CreateDomains env c names).err = none ∧ (CreateDomains env c names).object = none) ∧
    (∀ n, (CreateDomain env c n).err = none ∧ (CreateDomain env c n).object = some Domain.zero) ∧
    ((GetDomains env c).err = none ∧ (GetDomains env c).object = some DomainList.zero) ∧
    (∀ id, (GetDomainById env c id).err = none ∧
      (GetDomainById env c id).object = some Domain.zero) ∧
    (∀ n, (GetDomainByName env c n).err = none ∧
      (GetDomainByName env c n).object = some Domain.zero) ∧
    (∀ id, (GetDomainRecords env c id).err = none ∧ (GetDomainRecords env c id).object = none) ∧
    (∀ d r, (AddRecord env c d r).err = none ∧ (AddRecord env c d r).object = r) ∧
    (∀ d r, (UpdRecord env c d r).err = none ∧ (UpdRecord env c d r).object = r) := by
  have hbase := requestError_base env c hReq
  have hreq : ∀ (α : Type) (dec : JSON → α → α × Option String) (r : Request)
      (object : Option α), request env c dec r object =
        { object := object, err := none, dispatched := [sign env c r] } :=
    fun α dec r object => request_of_empty_body env c dec r object resp (hDo _) hs hb
  refine ⟨?_, ?_, ?_, ?_, ?_, ?_, ?_, ?_, ?_⟩
  · intro α dec r object
    rw [hreq]
    exact ⟨rfl, rfl⟩
  · intro names
    simp [CreateDomains, jsonMarshal, createDomains_doc, NewRequest, hbase, hreq]
  · intro n
    simp [CreateDomain, jsonMarshal, createDomain_doc, NewRequest, hbase, hreq]
  · simp [GetDomains, NewRequest, hbase, hreq]
  · intro id
    simp [GetDomainById, NewRequest, hReq, hreq]
  · intro n
    have h := hReq "GET" ("name?domainname=" ++ n)
    rw [← String.append_assoc] at h
    simp [GetDomainByName, NewRequest, h, hreq]
  · intro id
    have h := hReq "GET" (fmtUint id ++ "/records")
    rw [← String.append_assoc] at h
    simp [GetDomainRecords, NewRequest, h, hreq, DomainRecords.zero]
  · intro d r
    have hdoc := jsonMarshal_record env r
    have h := hReq "POST" (fmtUint d ++ "/records")
    rw [← String.append_assoc] at h
    simp [AddRecord, hdoc, NewRequest, h, hreq]
  · intro d r
    have hdoc := jsonMarshal_record env r
    have h := hReq "PUT" (fmtUint d ++ "/records/" ++ fmtUint r.Id)
    rw [← String.append_assoc, ← String.append_assoc] at h
    simp [UpdRecord, hdoc, NewRequest, h, hreq]

/-- An instance of C3: status 200 with an empty body. -/
theorem empty_success_leaves_result_untouched_witness :
    ((200 : Int) < 400 ∧ (Response.mk 200 []).Body = []) ∧
    ((GetDomains (exampleEnv ⟨200, []⟩) exampleClient).err = none ∧
      (GetDomains (exampleEnv ⟨200, []⟩) exampleClient).object = some DomainList.zero) :=
  ⟨⟨by decide, rfl⟩,
    (empty_success_leaves_result_untouched (exampleEnv ⟨200, []⟩) exampleClient ⟨200, []⟩
      (fun _ => rfl) (fun m sfx => exampleEnv_accepts _ m sfx) (by decide) rfl).2.2.2.1⟩

/-- C10: for the operations that pass no result target to `request`
(`DeleteDomains`, `DeleteDomain`, `UpdDomains`, `DelRecord`), on a response with a
status code below 400 the operation returns nil exactly when the response body is
empty: a non-empty body is decoded into a nil target, which always fails. -/
theorem nil_target_success_iff_empty_body (env : Env) (c : Client) (resp : Response)
    (hDo : ∀ q, env.Do q = .ok resp)
    (hReq : ∀ m sfx, env.requestError m (c.Url ++ sfx) = none)
    (hs : resp.StatusCode < 400) :
    (∀ ids, (DeleteDomains env c ids).err = none ↔ resp.Body = []) ∧
    (∀ id, (DeleteDomain env c id).err = none ↔ resp.Body = []) ∧
    (∀ ids fields, (UpdDomains env c ids fields).err = none ↔ resp.Body = []) ∧
    (∀ d rid, (DelRecord env c d rid).err = none ↔ resp.Body = []) := by
  have hbase := requestError_base env c hReq
  have hreq : ∀ r : Request, (request env c noDecode r none).err = none ↔ resp.Body = [] :=
    fun r => request_nil_err_iff env c noDecode r resp (hDo _) hs
  have hdel : ∀ ids, (DeleteDomains env c ids).err = none ↔ resp.Body = [] := by
    intro ids
    simp only [DeleteDomains, jsonMarshal, marshalValue_ofUint32s, NewRequest, hbase, hreq]
  refine ⟨hdel, fun id => hdel _, ?_, ?_⟩
  · intro ids fields
    simp only [UpdDomains, NewRequest, hbase, hreq]
  · intro d rid
    have h := hReq "DELETE" (fmtUint d ++ "/records/" ++ fmtUint rid)
    rw [← String.append_assoc, ← String.append_assoc] at h
    simp only [DelRecord, NewRequest, h, hreq]

/-- An instance of C10: status 200 with the body `null`. -/
theorem nil_target_success_iff_empty_body_witness :
    (200 : Int) < 400 ∧
    ((DelRecord (exampleEnv ⟨200, utf8Bytes "null"⟩) exampleClient 1 2).err = none ↔
      (Response.mk 200 (utf8Bytes "null")).Body = []) :=
  ⟨by decide,
    (nil_target_success_iff_empty_body (exampleEnv ⟨200, utf8Bytes "null"⟩) exampleClient
      ⟨200, utf8Bytes "null"⟩ (fun _ => rfl) (fun m sfx => exampleEnv_accepts _ m sfx)
      (by decide)).2.2.2 1 2⟩

theorem canonicalKey_apikey : canonicalKey "x-dnsme-apikey" = "X-Dnsme-Apikey" := by decide

theorem canonicalKey_requestdate :
    canonicalKey "x-dnsme-requestdate" = "X-Dnsme-Requestdate" := by decide

theorem canonicalKey_hmac : canonicalKey "x-dnsme-hmac" = "X-Dnsme-Hmac" := by decide

theorem canonicalKey_accept : canonicalKey "Accept" = "Accept" := by decide

theorem sign_header (env : Env) (c : Client) (r : Request) (h : r.Header = []) :
    (sign env c r).Header =
      [("X-Dnsme-Apikey", c.APIKey), ("X-Dnsme-Requestdate", env.now),
       ("X-Dnsme-Hmac", hexEncode (hmacSHA1 (utf8Bytes c.APISecret) (utf8Bytes env.now))),
       ("Accept", "application/json")] := by
  simp only [sign, Header.Add, h, canonicalKey_apikey, canonicalKey_requestdate,
    canonicalKey_hmac, canonicalKey_accept, List.nil_append, List.cons_append]

theorem bigEndian_lt (n x : Nat) : ∀ y ∈ bigEndian n x, y < 256 := by
  induction n generalizing x with
  | zero => intro y hy; simp [bigEndian] at hy
  | succ n ih =>
    intro y hy
    simp only [bigEndian, List.mem_append, List.mem_singleton] at hy
    rcases hy with hy | hy
    · exact ih _ y hy
    · rw [hy]
      exact Nat.mod_lt _ (by decide)

theorem bigEndian_length (n x : Nat) : (bigEndian n x).length = n := by
  induction n generalizing x with
  | zero => rfl
  | succ n ih => simp [bigEndian, ih]

theorem sha1_lt (msg : Bytes) : ∀ y ∈ sha1 msg, y < 256 := by
  intro y hy
  simp only [sha1, List.mem_append] at hy
  rcases hy with (((hy | hy) | hy) | hy) | hy <;> exact bigEndian_lt _ _ y hy

theorem sha1_length (msg : Bytes) : (sha1 msg).length = 20 := by
  simp [sha1, bigEndian_length]

theorem hmacSHA1_lt (key msg : Bytes) : ∀ y ∈ hmacSHA1 key msg, y < 256 :=
  sha1_lt _

theorem hmacSHA1_length (key msg : Bytes) : (hmacSHA1 key msg).length = 20 :=
  sha1_length _

theorem hexValue_hexDigit (n : Nat) (h : n < 16) : hexValue (hexDigit n) = some n := by
  interval_cases n <;> decide

theorem hexDecodeChars_encode (b : Bytes) (h : ∀ x ∈ b, x < 256) :
    hexDecodeChars (b.flatMap fun x => [hexDigit (x / 16 % 16), hexDigit (x % 16)]) = some b := by
  induction b with
  | nil => rfl
  | cons x xs ih =>
    have hx : x < 256 := h x (List.mem_cons_self _ _)
    have ih' := ih fun y hy => h y (List.mem_cons_of_mem _ hy)
    have e : ((x :: xs).flatMap fun x => [hexDigit (x / 16 % 16), hexDigit (x % 16)]) =
        hexDigit (x / 16 % 16) :: hexDigit (x % 16) ::
          (xs.flatMap fun x => [hexDigit (x / 16 % 16), hexDigit (x % 16)]) := by
      simp [List.flatMap_cons]
    rw [e, hexDecodeChars, hexValue_hexDigit _ (Nat.mod_lt _ (by decide)),
      hexValue_hexDigit _ (Nat.mod_lt _ (by decide)), ih']
    simp only [Option.some.injEq, List.cons.injEq, and_true]
    omega

theorem hexDecode_hexEncode (b : Bytes) (h : ∀ x ∈ b, x < 256) :
    hexDecode (hexEncode b) = some b := hexDecodeChars_encode b h

/-- C2: on every request built by `http.NewRequest`, for every client and every
request time, `request` sends one value of `x-dnsme-hmac`.  Read as lowercase
hexadecimal, two digits per byte, that value is the 20 bytes of the HMAC-SHA1 keyed
with the bytes of `APISecret` over the bytes of the value sent in
`x-dnsme-requestdate`, which is the formatted request time; and `APIKey` is sent
verbatim in `x-dnsme-apikey`.  The request handed to the transport is the one
carrying these headers. -/
theorem hmac_header_signs_request_date (env : Env) (c : Client) (method url : String)
    (body : Option Bytes) (r : Request) (h : NewRequest env method url body = .ok r) :
    Header.Values (sign env c r).Header "x-dnsme-hmac" =
      [hexEncode (hmacSHA1 (utf8Bytes c.APISecret)
        (utf8Bytes (Header.Get (sign env c r).Header "x-dnsme-requestdate")))] ∧
    hexDecode (Header.Get (sign env c r).Header "x-dnsme-hmac") =
      some (hmacSHA1 (utf8Bytes c.APISecret)
        (utf8Bytes (Header.Get (sign env c r).Header "x-dnsme-requestdate"))) ∧
    (hmacSHA1 (utf8Bytes c.APISecret)
      (utf8Bytes (Header.Get (sign env c r).Header "x-dnsme-requestdate"))).length = 20 ∧
    Header.Values (sign env c r).Header "x-dnsme-requestdate" = [env.now] ∧
    Header.Values (sign env c r).Header "x-dnsme-apikey" = [c.APIKey] ∧
    ∀ (α : Type) (dec : JSON → α → α × Option String) (object : Option α),
      (request env c dec r object).dispatched = [sign env c r] := by
  have h0 := NewRequest_header env method url body r h
  rw [sign_header env c r h0]
  refine ⟨?_, ?_, hmacSHA1_length _ _, ?_, ?_, fun α dec object => ?_⟩
  · simp [Header.Values, Header.Get, canonicalKey_hmac, canonicalKey_requestdate]
  · have e1 : Header.Get [("X-Dnsme-Apikey", c.APIKey), ("X-Dnsme-Requestdate", env.now),
        ("X-Dnsme-Hmac", hexEncode (hmacSHA1 (utf8Bytes c.APISecret) (utf8Bytes env.now))),
        ("Accept", "application/json")] "x-dnsme-hmac" =
        hexEncode (hmacSHA1 (utf8Bytes c.APISecret) (utf8Bytes env.now)) := by
      simp [Header.Values, Header.Get, canonicalKey_hmac]
    have e2 : Header.Get [("X-Dnsme-Apikey", c.APIKey), ("X-Dnsme-Requestdate", env.now),
        ("X-Dnsme-Hmac", hexEncode (hmacSHA1 (utf8Bytes c.APISecret) (utf8Bytes env.now))),
        ("Accept", "application/json")] "x-dnsme-requestdate" = env.now := by
      simp [Header.Values, Header.Get, canonicalKey_requestdate]
    rw [e1, e2]
    exact hexDecode_hexEncode _ (hmacSHA1_lt _ _)
  · simp [Header.Values, canonicalKey_requestdate]
  · simp [Header.Values, canonicalKey_apikey]
  · exact request_dispatched env c dec _ object

set_option maxRecDepth 100000 in
/-- An instance of C2: a GET request of the example client, key `secret`, sent at
`Wed, 04 Nov 2026 10:32:00 UTC`; the header is the digest computed outside. -/
theorem hmac_header_signs_request_date_witness :
    Header.Values (sign (exampleEnv ⟨200, []⟩) exampleClient
        ⟨"GET", exampleClient.Url, [], none⟩).Header "x-dnsme-hmac" =
      ["5705eb7371f2c9fdd647dc03167393b254032c4c"] :=
  ((hmac_header_signs_request_date (exampleEnv ⟨200, []⟩) exampleClient "GET"
    exampleClient.Url none ⟨"GET", exampleClient.Url, [], none⟩
    (NewRequest_ok _ _ _ _ (exampleEnv_accepts_base _ _))).1).trans (by decide)

set_option maxRecDepth 100000 in
theorem hmacSHA1_rfc2202 :
    hexEncode (hmacSHA1 (utf8Bytes "Jefe") (utf8Bytes "what do ya want for nothing?")) =
      "effcdf6ae5eb2fa2d27416d5f184df9c259a7c79" := by decide

set_option maxRecDepth 100000 in
theorem sha1_rfc3174 :
    hexEncode (sha1 (utf8Bytes "abc")) = "a9993e364706816aba3e25717850c26c9cd0d89d" := by decide

/-! ## The requests the operations build -/

theorem sign_line (env : Env) (c : Client) (r : Request) : (sign env c r).line = r.line := rfl

theorem digitValue_digit (d : Nat) (h : d < 10) : digitValue (Char.ofNat (48 + d)) = some d := by
  interval_cases d <;> decide

theorem digit_ne_zero (d : Nat) (h0 : 0 < d) (h : d < 10) : Char.ofNat (48 + d) ≠ '0' := by
  interval_cases d <;> decide

theorem readDigits_none (cs : List Char) : readDigits cs none = none := by
  cases cs <;> simp [readDigits]

theorem readDigits_append (a b : List Char) : ∀ acc,
    readDigits (a ++ b) acc = readDigits b (readDigits a acc) := by
  induction a with
  | nil => intro acc; rfl
  | cons ch rest ih =>
    intro acc
    simp only [List.cons_append, readDigits]
    cases acc with
    | none => simp [readDigits_none]
    | some x =>
      cases digitValue ch with
      | none => simp [readDigits_none]
      | some d => simp [ih]

theorem readDigits_decimalDigits : ∀ fuel n, n < fuel →
    readDigits (decimalDigits fuel n) (some 0) = some n := by
  intro fuel
  induction fuel with
  | zero => intro n h; omega
  | succ fuel ih =>
    intro n h
    by_cases h10 : n < 10
    · simp [decimalDigits, h10, readDigits, digitValue_digit n h10]
    · have hq : n / 10 < fuel := by omega
      simp only [decimalDigits, h10, if_false, readDigits_append, ih (n / 10) hq, readDigits,
        digitValue_digit (n % 10) (Nat.mod_lt _ (by decide))]
      congr 1
      omega

theorem decimalDigits_head : ∀ fuel n, n < fuel → 0 < n →
    ∃ ch rest, decimalDigits fuel n = ch :: rest ∧ ch ≠ '0' := by
  intro fuel
  induction fuel with
  | zero => intro n h; omega
  | succ fuel ih =>
    intro n h hpos
    by_cases h10 : n < 10
    · exact ⟨_, [], by simp [decimalDigits, h10], digit_ne_zero n hpos h10⟩
    · obtain ⟨ch, rest, he, hne⟩ := ih (n / 10) (by omega) (by omega)
      exact ⟨ch, rest ++ [Char.ofNat (48 + n % 10)], by simp [decimalDigits, h10, he], hne⟩

theorem decimalValue_fmtUint (n : Nat) : decimalValue (fmtUint n) = some n := by
  unfold decimalValue fmtUint
  have hr := readDigits_decimalDigits (n + 1) n (by omega)
  by_cases h10 : n < 10
  · have hd : decimalDigits (n + 1) n = [Char.ofNat (48 + n)] := by simp [decimalDigits, h10]
    rw [hd] at hr
    simp only [hd]
    simpa using hr
  · obtain ⟨ch, rest, he, hne⟩ := decimalDigits_head (n + 1) n (by omega) (by omega)
    rw [he] at hr
    simp only [he, hne, false_and, if_false]
    exact hr

/-- C8, as the code has it: for every base URL, domain id and record for which
`http.NewRequest` accepts the URL built, the record operations hand the transport
exactly one request each, with the ids written in decimal (the text `fmtUint`
writes for an id is the decimal numeral of that id): `AddRecord` a POST to
`Url ++ d ++ "/records"` carrying the record, `UpdRecord` a PUT to
`Url ++ d ++ "/records/" ++ r.Id` carrying the record, `DelRecord` a DELETE to
`Url ++ d ++ "/records/" ++ rid` without a body, and `GetDomainRecords` a GET to
`Url ++ d ++ "/records"` without a body. -/
theorem record_operations_requests (env : Env) (c : Client)
    (hReq : ∀ m sfx, env.requestError m (c.Url ++ sfx) = none) :
    (∀ d r, (AddRecord env c d r).dispatched.map Request.line =
      [("POST", c.Url ++ fmtUint d ++ "/records", some (env.jsonEncode (docOf r.toGoValue)))]) ∧
    (∀ d r, (UpdRecord env c d r).dispatched.map Request.line =
      [("PUT", c.Url ++ fmtUint d ++ "/records/" ++ fmtUint r.Id,
        some (env.jsonEncode (docOf r.toGoValue)))]) ∧
    (∀ d rid, (DelRecord env c d rid).dispatched.map Request.line =
      [("DELETE", c.Url ++ fmtUint d ++ "/records/" ++ fmtUint rid, none)]) ∧
    (∀ d, (GetDomainRecords env c d).dispatched.map Request.line =
      [("GET", c.Url ++ fmtUint d ++ "/records", none)]) ∧
    (∀ n, decimalValue (fmtUint n) = some n) := by
  refine ⟨?_, ?_, ?_, ?_, decimalValue_fmtUint⟩
  · intro d r
    have h := hReq "POST" (fmtUint d ++ "/records")
    rw [← String.append_assoc] at h
    simp only [AddRecord, jsonMarshal_record, NewRequest, h, request_dispatched, List.map_cons,
      List.map_nil, sign_line]
    rfl
  · intro d r
    have h := hReq "PUT" (fmtUint d ++ "/records/" ++ fmtUint r.Id)
    rw [← String.append_assoc, ← String.append_assoc] at h
    simp only [UpdRecord, jsonMarshal_record, NewRequest, h, request_dispatched, List.map_cons,
      List.map_nil, sign_line]
    rfl
  · intro d rid
    have h := hReq "DELETE" (fmtUint d ++ "/records/" ++ fmtUint rid)
    rw [← String.append_assoc, ← String.append_assoc] at h
    simp only [DelRecord, NewRequest, h, request_dispatched, List.map_cons,
      List.map_nil, sign_line]
    rfl
  · intro d
    have h := hReq "GET" (fmtUint d ++ "/records")
    rw [← String.append_assoc] at h
    simp only [GetDomainRecords, NewRequest, h, request_dispatched, List.map_cons,
      List.map_nil, sign_line]
    rfl

/-- An instance of C8: deleting record 7 of domain 5 with the example client. -/
theorem record_operations_requests_witness :
    (DelRecord (exampleEnv ⟨200, []⟩) exampleClient 5 7).dispatched.map Request.line =
      [("DELETE", "https://api.sandbox.dnsmadeeasy.com/V2.0/dns/managed/5/records/7", none)] :=
  ((record_operations_requests (exampleEnv ⟨200, []⟩) exampleClient
    (fun m sfx => exampleEnv_accepts _ m sfx)).2.2.1 5 7).trans (by decide)

/-- C8, the counterexample: with the base URL `:`, which `http.NewRequest` rejects
(it has no scheme), `DelRecord`, `GetDomainRecords` and `UpdRecord` build no
request: they return the error of `http.NewRequest` and nothing is sent. -/
theorem record_operations_no_request_on_rejected_url :
    (exampleEnv ⟨200, []⟩).requestError "DELETE"
        (brokenClient.Url ++ fmtUint 5 ++ "/records/" ++ fmtUint 7) =
      some "parse: missing protocol scheme" ∧
    (DelRecord (exampleEnv ⟨200, []⟩) brokenClient 5 7).dispatched.map Request.line = [] ∧
    (DelRecord (exampleEnv ⟨200, []⟩) brokenClient 5 7).err =
      some (.newRequest "parse: missing protocol scheme") ∧
    (GetDomainRecords (exampleEnv ⟨200, []⟩) brokenClient 5).dispatched.map Request.line = [] ∧
    (UpdRecord (exampleEnv ⟨200, []⟩) brokenClient 5 exampleRecord).dispatched.map
      Request.line = [] := by
  refine ⟨by decide, by decide, rfl, by decide, by decide⟩

/-- C4: `CreateDomain("example.com")` sends a POST to the base URL whose body is
the object with the single key `names`, not `name`: the statement that fills the
map reads the key `name` and writes the key `names`, so the body is the one
`CreateDomains` sends for the same one-element list. -/
theorem createDomain_sends_names_key :
    (CreateDomain (exampleEnv ⟨200, []⟩) exampleClient "example.com").dispatched.map
        Request.line =
      [("POST", "https://api.sandbox.dnsmadeeasy.com/V2.0/dns/managed/",
        some (utf8Bytes "\x7b\"names\":[\"example.com\"]\x7d"))] ∧
    (CreateDomain (exampleEnv ⟨200, []⟩) exampleClient "example.com").dispatched.map
        Request.line =
      (CreateDomains (exampleEnv ⟨200, []⟩) exampleClient (some ["example.com"])).dispatched.map
        Request.line ∧
    utf8Bytes "\x7b\"names\":[\"example.com\"]\x7d" ≠
      utf8Bytes "\x7b\"name\":[\"example.com\"]\x7d" := by
  refine ⟨by decide, by decide, by decide⟩

theorem NewRequest_error (env : Env) (method url msg : String) (body : Option Bytes)
    (h : env.requestError method url = some msg) :
    NewRequest env method url body = .error (.newRequest msg) := by
  unfold NewRequest
  rw [h]

theorem request_error_returned (env : Env) (c : Client) (msg : String)
    (hReq : ∀ m u, env.requestError m u = some msg) :
    (∀ names, (CreateDomains env c names).err = some (.newRequest msg) ∧
      (CreateDomains env c names).dispatched = []) ∧
    (∀ n, (CreateDomain env c n).err = some (.newRequest msg) ∧
      (CreateDomain env c n).dispatched = []) ∧
    (∀ ids, (DeleteDomains env c ids).err = some (.newRequest msg) ∧
      (DeleteDomains env c ids).dispatched = []) ∧
    (∀ ids fields, (UpdDomains env c ids fields).err = some (.newRequest msg) ∧
      (UpdDomains env c ids fields).dispatched = []) ∧
    ((GetDomains env c).err = some (.newRequest msg) ∧ (GetDomains env c).dispatched = []) ∧
    (∀ id, (GetDomainById env c id).err = some (.newRequest msg) ∧
      (GetDomainById env c id).dispatched = []) ∧
    (∀ n, (GetDomainByName env c n).err = some (.newRequest msg) ∧
      (GetDomainByName env c n).dispatched = []) ∧
    (∀ id, (GetDomainRecords env c id).err = some (.newRequest msg) ∧
      (GetDomainRecords env c id).dispatched = []) ∧
    (∀ d rid, (DelRecord env c d rid).err = some (.newRequest msg) ∧
      (DelRecord env c d rid).dispatched = []) ∧
    (∀ d r, (UpdRecord env c d r).err = some (.newRequest msg) ∧
      (UpdRecord env c d r).dispatched = []) ∧
    (∀ d r, (AddRecord env c d r).err = none ∧ (AddRecord env c d r).dispatched = []) := by
  refine ⟨?_, ?_, ?_, ?_, ?_, ?_, ?_, ?_, ?_, ?_, ?_⟩
  · intro names
    simp [CreateDomains, jsonMarshal, createDomains_doc, NewRequest, hReq]
  · intro n
    simp [CreateDomain, jsonMarshal, createDomain_doc, NewRequest, hReq]
  · intro ids
    simp [DeleteDomains, jsonMarshal, marshalValue_ofUint32s, NewRequest, hReq]
  · intro ids fields
    simp [UpdDomains, NewRequest, hReq]
  · simp [GetDomains, NewRequest, hReq]
  · intro id
    simp [GetDomainById, NewRequest, hReq]
  · intro n
    simp [GetDomainByName, NewRequest, hReq]
  · intro id
    simp [GetDomainRecords, NewRequest, hReq]
  · intro d rid
    simp [DelRecord, NewRequest, hReq]
  · intro d r
    simp [UpdRecord, jsonMarshal_record, NewRequest, hReq]
  · intro d r
    simp [AddRecord, jsonMarshal_record, NewRequest, hReq]

/-- C5: with a base URL that `http.NewRequest` rejects, `AddRecord` returns nil and
sends nothing, where `UpdRecord` on the same input returns the error. -/
theorem addRecord_drops_request_error :
    (exampleEnv ⟨200, []⟩).requestError "POST" (brokenClient.Url ++ fmtUint 1 ++ "/records") =
      some "parse: missing protocol scheme" ∧
    (AddRecord (exampleEnv ⟨200, []⟩) brokenClient 1 exampleRecord).err = none ∧
    (AddRecord (exampleEnv ⟨200, []⟩) brokenClient 1 exampleRecord).dispatched = [] ∧
    (UpdRecord (exampleEnv ⟨200, []⟩) brokenClient 1 exampleRecord).err =
      some (.newRequest "parse: missing protocol scheme") := by
  refine ⟨by decide, rfl, rfl, rfl⟩

/-- C6: `UpdDomains` called with a field value that cannot be serialized (a
channel) on a transport that answers 200 with an empty body: `json.Marshal` fails,
yet a PUT with an empty body is sent and the method returns nil. -/
theorem updDomains_ignores_marshal_error :
    (∃ e, jsonMarshal (exampleEnv ⟨200, []⟩)
      (.map (updDomainsData (some [1]) [("x", .chan)])) = .error e) ∧
    (UpdDomains (exampleEnv ⟨200, []⟩) exampleClient (some [1]) [("x", .chan)]).err = none ∧
    (UpdDomains (exampleEnv ⟨200, []⟩) exampleClient (some [1]) [("x", .chan)]).dispatched.map
        Request.line =
      [("PUT", "https://api.sandbox.dnsmadeeasy.com/V2.0/dns/managed/", some [])] := by
  refine ⟨⟨_, rfl⟩, rfl, by decide⟩

/-! ## Maps, sorted members and the body of `UpdDomains` -/

theorem lookupKey_eq_some_iff {α : Type} (l : List (String × α))
    (hn : (l.map Prod.fst).Nodup) (k : String) (v : α) :
    lookupKey k l = some v ↔ (k, v) ∈ l := by
  induction l with
  | nil => simp [lookupKey]
  | cons kv rest ih =>
    obtain ⟨k', v'⟩ := kv
    simp only [List.map_cons, List.nodup_cons] at hn
    by_cases hk : k' = k
    · subst hk
      have hnot : (k', v) ∉ rest := fun hm => hn.1 (List.mem_map_of_mem Prod.fst hm)
      simp only [lookupKey, if_true, Option.some.injEq, List.mem_cons, Prod.mk.injEq,
        true_and, hnot, or_false]
      exact eq_comm
    · have hne : ¬ (k = k') := fun h => hk h.symm
      simp [lookupKey, hk, hne, ih hn.2]

theorem mem_keys_mapSet {α : Type} (k : String) (v : α) (l : List (String × α)) (x : String) :
    x ∈ (mapSet k v l).map Prod.fst ↔ x = k ∨ x ∈ l.map Prod.fst := by
  induction l with
  | nil => simp [mapSet]
  | cons kv rest ih =>
    obtain ⟨k', v'⟩ := kv
    by_cases hk : k' = k
    · subst hk
      simp [mapSet]
    · simp only [mapSet, hk, if_false, List.map_cons, List.mem_cons, ih]
      tauto

theorem nodup_keys_mapSet {α : Type} (k : String) (v : α) (l : List (String × α))
    (hn : (l.map Prod.fst).Nodup) : ((mapSet k v l).map Prod.fst).Nodup := by
  induction l with
  | nil => simp [mapSet]
  | cons kv rest ih =>
    obtain ⟨k', v'⟩ := kv
    simp only [List.map_cons, List.nodup_cons] at hn
    by_cases hk : k' = k
    · subst hk
      simpa [mapSet] using hn
    · simp only [mapSet, hk, if_false, List.map_cons, List.nodup_cons]
      refine ⟨?_, ih hn.2⟩
      rw [mem_keys_mapSet]
      rintro (h | h)
      · exact hk h
      · exact hn.1 h

theorem mem_mapSet {α : Type} (k : String) (v : α) (l : List (String × α))
    (hn : (l.map Prod.fst).Nodup) (k' : String) (v' : α) :
    (k', v') ∈ mapSet k v l ↔ (k' = k ∧ v' = v) ∨ (k' ≠ k ∧ (k', v') ∈ l) := by
  induction l with
  | nil => simp [mapSet]
  | cons kv rest ih =>
    obtain ⟨k0, v0⟩ := kv
    simp only [List.map_cons, List.nodup_cons] at hn
    by_cases hk : k0 = k
    · subst hk
      simp only [mapSet, if_true, List.mem_cons, Prod.mk.injEq]
      constructor
      · rintro (h | h)
        · exact Or.inl h
        · by_cases hkk : k' = k0
          · subst hkk
            exact absurd (List.mem_map_of_mem Prod.fst h) hn.1
          · exact Or.inr ⟨hkk, Or.inr h⟩
      · rintro (h | ⟨hne, h | h⟩)
        · exact Or.inl h
        · exact absurd h.1 hne
        · exact Or.inr h
    · simp only [mapSet, hk, if_false, List.mem_cons, Prod.mk.injEq, ih hn.2]
      constructor
      · rintro (⟨h1, h2⟩ | h | h)
        · subst h1
          exact Or.inr ⟨hk, Or.inl ⟨rfl, h2⟩⟩
        · exact Or.inl h
        · exact Or.inr ⟨h.1, Or.inr h.2⟩
      · rintro (h | ⟨hne, h | h⟩)
        · exact Or.inr (Or.inl h)
        · exact Or.inl h
        · exact Or.inr (Or.inr ⟨hne, h⟩)

theorem updDomains_fold (fields : List (String × GoValue)) :
    ∀ data : List (String × GoValue), (data.map Prod.fst).Nodup →
      (fields.map Prod.fst).Nodup →
      (((fields.foldl (fun data kv => mapSet kv.1 kv.2 data) data).map Prod.fst).Nodup) ∧
      ∀ k v, (k, v) ∈ fields.foldl (fun data kv => mapSet kv.1 kv.2 data) data ↔
        (k, v) ∈ fields ∨ (k ∉ fields.map Prod.fst ∧ (k, v) ∈ data) := by
  induction fields with
  | nil => intro data hd _; simp [hd]
  | cons f rest ih =>
    obtain ⟨k0, v0⟩ := f
    intro data hd hf
    simp only [List.map_cons, List.nodup_cons] at hf
    have h := ih (mapSet k0 v0 data) (nodup_keys_mapSet k0 v0 data hd) hf.2
    refine ⟨h.1, fun k v => ?_⟩
    simp only [List.foldl_cons, h.2, mem_mapSet k0 v0 data hd, List.mem_cons, Prod.mk.injEq,
      List.map_cons, not_or]
    constructor
    · rintro (h1 | ⟨h1, ⟨h2, h3⟩ | ⟨h2, h3⟩⟩)
      · exact Or.inl (Or.inr h1)
      · exact Or.inl (Or.inl ⟨h2, h3⟩)
      · exact Or.inr ⟨⟨h2, h1⟩, h3⟩
    · rintro ((⟨h1, h2⟩ | h1) | ⟨⟨h1, h2⟩, h3⟩)
      · subst h1
        exact Or.inr ⟨hf.1, Or.inl ⟨rfl, h2⟩⟩
      · exact Or.inl h1
      · exact Or.inr ⟨h2, Or.inr ⟨h1, h3⟩⟩

theorem insertMember_perm {α : Type} (kv : String × α) (l : List (String × α)) :
    (insertMember kv l).Perm (kv :: l) := by
  induction l with
  | nil => simp [insertMember]
  | cons m rest ih =>
    by_cases h : keyLE kv.1 m.1 = true
    · simp [insertMember, h]
    · simp only [insertMember, h]
      exact ((List.Perm.cons m ih).trans (List.Perm.swap kv m rest))

theorem sortMembers_perm {α : Type} (l : List (String × α)) : (sortMembers l).Perm l := by
  induction l with
  | nil => simp [sortMembers]
  | cons kv rest ih =>
    simp only [sortMembers]
    exact (insertMember_perm kv _).trans (List.Perm.cons kv ih)

theorem marshalEntries_of_ok (kvs : List (String × GoValue))
    (h : ∀ kv ∈ kvs, ∃ j, marshalValue kv.2 = .ok j) :
    marshalEntries kvs = .ok (kvs.map fun kv => (kv.1, docOf kv.2)) := by
  induction kvs with
  | nil => simp [marshalEntries]
  | cons kv rest ih =>
    obtain ⟨k, v⟩ := kv
    obtain ⟨j, hj⟩ := h (k, v) (List.mem_cons_self _ _)
    have hrest := ih fun g hg => h g (List.mem_cons_of_mem _ hg)
    simp [marshalEntries, hj, hrest, docOf]

theorem docOf_ofUint32s (ids : Slice Nat) : docOf (GoValue.ofUint32s ids) = uint32sDoc ids := by
  rw [docOf, marshalValue_ofUint32s]

theorem docOf_of_ok (v : GoValue) (j : JSON) (h : marshalValue v = .ok j) : docOf v = j := by
  rw [docOf, h]

/-- C7, as the code has it: for every identifier list and every fields map with
serializable values, when `http.NewRequest` accepts the base URL, `UpdDomains`
sends one PUT to the base URL whose body is a JSON object with distinct keys that
maps every key `k` of `fields` to `fields[k]`, maps `ids` to the identifier list
when `fields` has no key `ids`, and has no other key. -/
theorem updDomains_sends_merged_fields (env : Env) (c : Client) (ids : Slice Nat)
    (fields : List (String × GoValue)) (hnodup : (fields.map Prod.fst).Nodup)
    (hser : ∀ kv ∈ fields, ∃ j, marshalValue kv.2 = .ok j)
    (hReq : env.requestError "PUT" c.Url = none) :
    ∃ members : List (String × JSON),
      (UpdDomains env c ids fields).dispatched.map Request.line =
        [("PUT", c.Url, some (env.jsonEncode (.obj members)))] ∧
      (JSON.obj members).keys.Nodup ∧
      (∀ k v j, (k, v) ∈ fields → marshalValue v = .ok j → (JSON.obj members).get k = some j) ∧
      ("ids" ∉ fields.map Prod.fst → (JSON.obj members).get "ids" = some (uint32sDoc ids)) ∧
      (∀ k ∈ (JSON.obj members).keys, k = "ids" ∨ k ∈ fields.map Prod.fst) := by
  have hd : (([("ids", GoValue.ofUint32s ids)] : List (String × GoValue)).map Prod.fst).Nodup := by
    simp
  have hfold := updDomains_fold fields [("ids", GoValue.ofUint32s ids)] hd hnodup
  have hdata : updDomainsData ids fields =
      fields.foldl (fun data kv => mapSet kv.1 kv.2 data) [("ids", GoValue.ofUint32s ids)] := rfl
  rw [← hdata] at hfold
  obtain ⟨hkeys, hmem⟩ := hfold
  have hok : ∀ kv ∈ updDomainsData ids fields, ∃ j, marshalValue kv.2 = .ok j := by
    rintro ⟨k, v⟩ hkv
    rcases (hmem k v).mp hkv with h | ⟨_, h⟩
    · exact hser (k, v) h
    · simp only [List.mem_singleton, Prod.mk.injEq] at h
      rw [h.2]
      exact ⟨_, marshalValue_ofUint32s ids⟩
  have hperm := sortMembers_perm
    ((updDomainsData ids fields).map fun kv => (kv.1, docOf kv.2))
  have hkeysEq : (((updDomainsData ids fields).map fun kv => (kv.1, docOf kv.2)).map Prod.fst) =
      (updDomainsData ids fields).map Prod.fst := by
    simp [List.map_map, Function.comp_def]
  have hnd : ((sortMembers
      ((updDomainsData ids fields).map fun kv => (kv.1, docOf kv.2))).map Prod.fst).Nodup := by
    rw [(hperm.map Prod.fst).nodup_iff, hkeysEq]
    exact hkeys
  have hget : ∀ k v, (k, v) ∈ updDomainsData ids fields →
      lookupKey k (sortMembers ((updDomainsData ids fields).map fun kv => (kv.1, docOf kv.2))) =
        some (docOf v) := by
    intro k v hkv
    rw [lookupKey_eq_some_iff _ hnd, hperm.mem_iff]
    exact List.mem_map.mpr ⟨(k, v), hkv, rfl⟩
  refine ⟨updDomainsMembers ids fields, ?_, hnd, ?_, ?_, ?_⟩
  · simp only [UpdDomains, jsonMarshal, marshalValue, marshalEntries_of_ok _ hok, NewRequest,
      hReq, request_dispatched, List.map_cons, List.map_nil, sign_line]
    rfl
  · intro k v j hkv hj
    have h := hget k v ((hmem k v).mpr (Or.inl hkv))
    rw [docOf_of_ok v j hj] at h
    exact h
  · intro hids
    have h := hget "ids" (GoValue.ofUint32s ids)
      ((hmem _ _).mpr (Or.inr ⟨hids, List.mem_singleton.mpr rfl⟩))
    rw [docOf_ofUint32s] at h
    exact h
  · intro k hk
    have hk' : k ∈ (updDomainsData ids fields).map Prod.fst := by
      rw [← hkeysEq]
      exact (hperm.map Prod.fst).mem_iff.mp hk
    obtain ⟨⟨k', v⟩, hkv, rfl⟩ := List.mem_map.mp hk'
    rcases (hmem k' v).mp hkv with h | ⟨_, h⟩
    · exact Or.inr (List.mem_map_of_mem Prod.fst h)
    · simp only [List.mem_singleton, Prod.mk.injEq] at h
      exact Or.inl h.1

/-- An instance of C7: the update of `TestUpdDomains`, `gtdEnabled` set to false on
two domains. -/
theorem updDomains_sends_merged_fields_witness :
    ∃ members : List (String × JSON),
      (UpdDomains (exampleEnv ⟨200, []⟩) exampleClient (some [11, 12])
          [("gtdEnabled", .bool false)]).dispatched.map Request.line =
        [("PUT", exampleClient.Url, some ((exampleEnv ⟨200, []⟩).jsonEncode (.obj members)))] ∧
      (JSON.obj members).keys.Nodup ∧
      (∀ k v j, (k, v) ∈ [("gtdEnabled", GoValue.bool false)] → marshalValue v = .ok j →
        (JSON.obj members).get k = some j) ∧
      ("ids" ∉ [("gtdEnabled", GoValue.bool false)].map Prod.fst →
        (JSON.obj members).get "ids" = some (uint32sDoc (some [11, 12]))) ∧
      (∀ k ∈ (JSON.obj members).keys,
        k = "ids" ∨ k ∈ [("gtdEnabled", GoValue.bool false)].map Prod.fst) :=
  updDomains_sends_merged_fields (exampleEnv ⟨200, []⟩) exampleClient (some [11, 12])
    [("gtdEnabled", .bool false)] (by simp)
    (by intro kv hkv; rw [List.mem_singleton.mp hkv]; exact ⟨_, rfl⟩)
    (exampleEnv_accepts_base _ _)

/-- C7, the counterexample: with identifier list `[1]` and the fields map
`\x7b"ids": "x"\x7d`, the body `UpdDomains` sends is `\x7b"ids":"x"\x7d`: under `ids`
it carries the value from `fields`, not the identifier list that was passed. -/
theorem updDomains_fields_override_ids :
    (UpdDomains (exampleEnv ⟨200, []⟩) exampleClient (some [1])
        [("ids", .string "x")]).dispatched.map Request.line =
      [("PUT", "https://api.sandbox.dnsmadeeasy.com/V2.0/dns/managed/",
        some (utf8Bytes "\x7b\"ids\":\"x\"\x7d"))] ∧
    marshalValue (.map (updDomainsData (some [1]) [("ids", .string "x")])) =
      .ok (.obj [("ids", .str "x")]) ∧
    (JSON.obj [("ids", .str "x")]).get "ids" ≠ some (uint32sDoc (some [1])) := by
  refine ⟨by decide, rfl, ?_⟩
  simp [JSON.get, JSON.members, lookupKey, uint32sDoc]

/-! ## Marshaling a `Record` and decoding it back -/

theorem Record.decodeMembers_append (a b : List (String × JSON)) :
    ∀ acc, Record.decodeMembers (a ++ b) acc = Record.decodeMembers b (Record.decodeMembers a acc) := by
  induction a with
  | nil => intro acc; rfl
  | cons kv rest ih =>
    obtain ⟨k, v⟩ := kv
    intro acc
    simp only [List.cons_append, Record.decodeMembers]
    cases findField Record.fieldNames k with
    | none => exact ih _
    | some name => exact ih _

theorem Record.decode_field (k : String) (o : Bool) (v : GoValue) (acc acc' : Record)
    (hfind : findField Record.fieldNames k = some k)
    (hempty : (o && v.isEmptyValue) = true → acc' = acc)
    (hset : (o && v.isEmptyValue) = false → Record.setField k (docOf v) acc = (acc', none)) :
    Record.decodeMembers (fieldMembers (k, o, v)) (acc, none) = (acc', none) := by
  unfold fieldMembers
  by_cases h : (o && v.isEmptyValue) = true
  · simp only [h, if_true, Record.decodeMembers, hempty h]
  · have h' : (o && v.isEmptyValue) = false := by simpa using h
    simp only [h', Bool.false_eq_true, if_false, Record.decodeMembers, hfind, hset h', firstError]

theorem decodeInt_num (n old : Int) (h : -(2 : Int) ^ 63 ≤ n ∧ n < (2 : Int) ^ 63) :
    decodeInt (.num n) old = (n, none) := by
  simp only [decodeInt, h, and_self, if_true]

theorem decodeUint32_num (n old : Nat) (h : n < 2 ^ 32) :
    decodeUint32 (.num (Int.ofNat n)) old = (n, none) := by
  have h1 : (0 : Int) ≤ Int.ofNat n := Int.ofNat_nonneg n
  have h2 : Int.ofNat n < (2 : Int) ^ 32 := by
    have : ((n : Nat) : Int) < ((2 ^ 32 : Nat) : Int) := Int.ofNat_lt.mpr h
    simpa using this
  simp only [decodeUint32, h1, h2, and_self, if_true]
  rfl

theorem decodeElems_goStrings (xs : List GoString) :
    ∀ olds, decodeElems decodeGoString [] (xs.map fun b => JSON.str (toValidUTF8 b)) olds =
      (xs.map coerceUTF8, none) := by
  induction xs with
  | nil => intro olds; rfl
  | cons x rest ih =>
    intro olds
    simp only [List.map_cons, decodeElems, ih, decodeGoString, firstError, coerceUTF8]

theorem mem_keys_fieldMembers (k k' : String) (o : Bool) (v : GoValue) :
    k ∈ (fieldMembers (k', o, v)).map Prod.fst ↔ (k = k' ∧ (o && v.isEmptyValue) = false) := by
  unfold fieldMembers
  by_cases h : (o && v.isEmptyValue) = true
  · simp [h]
  · have h' : (o && v.isEmptyValue) = false := by simpa using h
    simp [h']

theorem Record.setField_id (n : Nat) (acc : Record) (h : n < 2 ^ 32) :
    Record.setField "id" (docOf (.int (Int.ofNat n))) acc = ({ acc with Id := n }, none) := by
  have e : Record.setField "id" (docOf (.int (Int.ofNat n))) acc =
      ({ acc with Id := (decodeUint32 (.num (Int.ofNat n)) acc.Id).1 },
        (decodeUint32 (.num (Int.ofNat n)) acc.Id).2) := rfl
  rw [e, decodeUint32_num n acc.Id h]

theorem Record.setField_source (n : Int) (acc : Record)
    (h : -(2 : Int) ^ 63 ≤ n ∧ n < (2 : Int) ^ 63) :
    Record.setField "Source" (docOf (.int n)) acc = ({ acc with Source := n }, none) := by
  have e : Record.setField "Source" (docOf (.int n)) acc =
      ({ acc with Source := (decodeInt (.num n) acc.Source).1 },
        (decodeInt (.num n) acc.Source).2) := rfl
  rw [e, decodeInt_num n acc.Source h]

theorem Record.setField_sourceId (n : Int) (acc : Record)
    (h : -(2 : Int) ^ 63 ≤ n ∧ n < (2 : Int) ^ 63) :
    Record.setField "SourceId" (docOf (.int n)) acc = ({ acc with SourceId := n }, none) := by
  have e : Record.setField "SourceId" (docOf (.int n)) acc =
      ({ acc with SourceId := (decodeInt (.num n) acc.SourceId).1 },
        (decodeInt (.num n) acc.SourceId).2) := rfl
  rw [e, decodeInt_num n acc.SourceId h]

theorem Record.setField_ttl (n : Int) (acc : Record)
    (h : -(2 : Int) ^ 63 ≤ n ∧ n < (2 : Int) ^ 63) :
    Record.setField "ttl" (docOf (.int n)) acc = ({ acc with Ttl := n }, none) := by
  have e : Record.setField "ttl" (docOf (.int n)) acc =
      ({ acc with Ttl := (decodeInt (.num n) acc.Ttl).1 },
        (decodeInt (.num n) acc.Ttl).2) := rfl
  rw [e, decodeInt_num n acc.Ttl h]

theorem Record.decode_error_field (er : Slice GoString) (acc : Record)
    (hacc : acc.Error = none) :
    ∃ e, Record.decodeMembers (fieldMembers ("error", true, GoValue.ofGoStrings er)) (acc, none) =
      ({ acc with Error := e }, none) := by
  obtain ⟨a1, a2, a3, a4, a5, a6, a7, a8, a9, a10, a11, a12, a13, a14⟩ := acc
  simp only at hacc
  subst hacc
  rcases er with _ | _ | ⟨x, xs⟩
  · exact ⟨none, rfl⟩
  · exact ⟨none, rfl⟩
  · refine ⟨some ((x :: xs).map coerceUTF8), ?_⟩
    have hdoc : docOf (GoValue.ofGoStrings (some (x :: xs))) =
        .arr ((x :: xs).map fun b => JSON.str (toValidUTF8 b)) := by
      rw [docOf, marshalValue_ofGoStrings]
      rfl
    have hfm : fieldMembers ("error", true, GoValue.ofGoStrings (some (x :: xs))) =
        [("error", .arr ((x :: xs).map fun b => JSON.str (toValidUTF8 b)))] := by
      rw [← hdoc]
      rfl
    have hset : Record.setField "error" (.arr ((x :: xs).map fun b => JSON.str (toValidUTF8 b)))
        (Record.mk a1 a2 a3 a4 a5 a6 a7 a8 a9 a10 a11 a12 a13 none) =
        (Record.mk a1 a2 a3 a4 a5 a6 a7 a8 a9 a10 a11 a12 a13
          (some (decodeElems decodeGoString []
            ((x :: xs).map fun b => JSON.str (toValidUTF8 b)) []).1),
          (decodeElems decodeGoString []
            ((x :: xs).map fun b => JSON.str (toValidUTF8 b)) []).2) := rfl
    have hfind : findField Record.fieldNames "error" = some "error" := by decide
    rw [hfm]
    simp only [Record.decodeMembers, hfind, hset, decodeElems_goStrings, firstError]

theorem Record.docOf_members (dd fa fo : Bool) (gl : GoString) (hl : Bool) (id : Nat) (mo : Bool)
    (na : GoString) (so si tt : Int) (ty va : GoString) (er : Slice GoString) :
    docOf (Record.toGoValue (Record.mk dd fa fo gl hl id mo na so si tt ty va er)) =
      .obj (fieldMembers ("DynamicDns", true, (GoValue.bool dd)) ++
        (fieldMembers ("Failed", true, (GoValue.bool fa)) ++
        (fieldMembers ("Failover", true, (GoValue.bool fo)) ++
        (fieldMembers ("gtdLocation", false, (GoValue.rawString gl)) ++
        (fieldMembers ("HardLink", true, (GoValue.bool hl)) ++
        (fieldMembers ("id", true, (GoValue.int (Int.ofNat id))) ++
        (fieldMembers ("Monitor", true, (GoValue.bool mo)) ++
        (fieldMembers ("name", false, (GoValue.rawString na)) ++
        (fieldMembers ("Source", true, (GoValue.int so)) ++
        (fieldMembers ("SourceId", true, (GoValue.int si)) ++
        (fieldMembers ("ttl", false, (GoValue.int tt)) ++
        (fieldMembers ("type", false, (GoValue.rawString ty)) ++
        (fieldMembers ("value", false, (GoValue.rawString va)) ++
        (fieldMembers ("error", true, GoValue.ofGoStrings er))))))))))))))) := by
  rw [docOf, Record.marshal_eq]
  simp only [Record.toGoValue, List.flatMap_cons, List.flatMap_nil, List.append_nil]

theorem Record.decode_marshal (r : Record) (h : r.inRange) :
    ∃ e, Record.decode (docOf r.toGoValue) Record.zero =
      ({ r with
          GtdLocation := coerceUTF8 r.GtdLocation, Name := coerceUTF8 r.Name,
          Type_ := coerceUTF8 r.Type_, Value := coerceUTF8 r.Value, Error := e }, none) := by
  obtain ⟨dd, fa, fo, gl, hl, id, mo, na, so, si, tt, ty, va, er⟩ := r
  obtain ⟨hid, hso, hsi, htt⟩ := h
  simp only at hid hso hsi htt
  rw [Record.docOf_members]
  simp only [Record.decode, Record.decodeMembers_append]
  have hz : Record.zero = (Record.mk false false false [] false 0 false [] 0 0 0 [] [] none) := rfl
  rw [hz]
  rw [Record.decode_field "DynamicDns" true (GoValue.bool dd) (Record.mk false false false [] false 0 false [] 0 0 0 [] [] none)
    (Record.mk dd false false [] false 0 false [] 0 0 0 [] [] none) (by decide)
    (by intro h; cases dd <;> first | rfl | simp [GoValue.isEmptyValue] at h)
    (fun _ => rfl)]
  rw [Record.decode_field "Failed" true (GoValue.bool fa) (Record.mk dd false false [] false 0 false [] 0 0 0 [] [] none)
    (Record.mk dd fa false [] false 0 false [] 0 0 0 [] [] none) (by decide)
    (by intro h; cases fa <;> first | rfl | simp [GoValue.isEmptyValue] at h)
    (fun _ => rfl)]
  rw [Record.decode_field "Failover" true (GoValue.bool fo) (Record.mk dd fa false [] false 0 false [] 0 0 0 [] [] none)
    (Record.mk dd fa fo [] false 0 false [] 0 0 0 [] [] none) (by decide)
    (by intro h; cases fo <;> first | rfl | simp [GoValue.isEmptyValue] at h)
    (fun _ => rfl)]
  rw [Record.decode_field "gtdLocation" false (GoValue.rawString gl) (Record.mk dd fa fo [] false 0 false [] 0 0 0 [] [] none)
    (Record.mk dd fa fo (coerceUTF8 gl) false 0 false [] 0 0 0 [] [] none) (by decide)
    (by intro h; simp at h)
    (fun _ => rfl)]
  rw [Record.decode_field "HardLink" true (GoValue.bool hl) (Record.mk dd fa fo (coerceUTF8 gl) false 0 false [] 0 0 0 [] [] none)
    (Record.mk dd fa fo (coerceUTF8 gl) hl 0 false [] 0 0 0 [] [] none) (by decide)
    (by intro h; cases hl <;> first | rfl | simp [GoValue.isEmptyValue] at h)
    (fun _ => rfl)]
  rw [Record.decode_field "id" true (GoValue.int (Int.ofNat id)) (Record.mk dd fa fo (coerceUTF8 gl) hl 0 false [] 0 0 0 [] [] none)
    (Record.mk dd fa fo (coerceUTF8 gl) hl id false [] 0 0 0 [] [] none) (by decide)
    (by intro h; have h0 : id = 0 := (by simpa [GoValue.isEmptyValue] using h); subst h0; rfl)
    (fun _ => Record.setField_id id _ hid)]
  rw [Record.decode_field "Monitor" true (GoValue.bool mo) (Record.mk dd fa fo (coerceUTF8 gl) hl id false [] 0 0 0 [] [] none)
    (Record.mk dd fa fo (coerceUTF8 gl) hl id mo [] 0 0 0 [] [] none) (by decide)
    (by intro h; cases mo <;> first | rfl | simp [GoValue.isEmptyValue] at h)
    (fun _ => rfl)]
  rw [Record.decode_field "name" false (GoValue.rawString na) (Record.mk dd fa fo (coerceUTF8 gl) hl id mo [] 0 0 0 [] [] none)
    (Record.mk dd fa fo (coerceUTF8 gl) hl id mo (coerceUTF8 na) 0 0 0 [] [] none) (by decide)
    (by intro h; simp at h)
    (fun _ => rfl)]
  rw [Record.decode_field "Source" true (GoValue.int so) (Record.mk dd fa fo (coerceUTF8 gl) hl id mo (coerceUTF8 na) 0 0 0 [] [] none)
    (Record.mk dd fa fo (coerceUTF8 gl) hl id mo (coerceUTF8 na) so 0 0 [] [] none) (by decide)
    (by intro h; have h0 : so = 0 := (by simpa [GoValue.isEmptyValue] using h); subst h0; rfl)
    (fun _ => Record.setField_source so _ hso)]
  rw [Record.decode_field "SourceId" true (GoValue.int si) (Record.mk dd fa fo (coerceUTF8 gl) hl id mo (coerceUTF8 na) so 0 0 [] [] none)
    (Record.mk dd fa fo (coerceUTF8 gl) hl id mo (coerceUTF8 na) so si 0 [] [] none) (by decide)
    (by intro h; have h0 : si = 0 := (by simpa [GoValue.isEmptyValue] using h); subst h0; rfl)
    (fun _ => Record.setField_sourceId si _ hsi)]
  rw [Record.decode_field "ttl" false (GoValue.int tt) (Record.mk dd fa fo (coerceUTF8 gl) hl id mo (coerceUTF8 na) so si 0 [] [] none)
    (Record.mk dd fa fo (coerceUTF8 gl) hl id mo (coerceUTF8 na) so si tt [] [] none) (by decide)
    (by intro h; simp at h)
    (fun _ => Record.setField_ttl tt _ htt)]
  rw [Record.decode_field "type" false (GoValue.rawString ty) (Record.mk dd fa fo (coerceUTF8 gl) hl id mo (coerceUTF8 na) so si tt [] [] none)
    (Record.mk dd fa fo (coerceUTF8 gl) hl id mo (coerceUTF8 na) so si tt (coerceUTF8 ty) [] none) (by decide)
    (by intro h; simp at h)
    (fun _ => rfl)]
  rw [Record.decode_field "value" false (GoValue.rawString va) (Record.mk dd fa fo (coerceUTF8 gl) hl id mo (coerceUTF8 na) so si tt (coerceUTF8 ty) [] none)
    (Record.mk dd fa fo (coerceUTF8 gl) hl id mo (coerceUTF8 na) so si tt (coerceUTF8 ty) (coerceUTF8 va) none) (by decide)
    (by intro h; simp at h)
    (fun _ => rfl)]
  exact Record.decode_error_field er (Record.mk dd fa fo (coerceUTF8 gl) hl id mo (coerceUTF8 na) so si tt (coerceUTF8 ty) (coerceUTF8 va) none) rfl

theorem Record.keys_members (r : Record) :
    (docOf r.toGoValue).keys =
      (match r.toGoValue with
        | .struct fields => fields
        | _ => []).flatMap fun f => (fieldMembers f).map Prod.fst := by
  rw [docOf, Record.marshal_eq]
  simp only [JSON.keys, JSON.members, List.map_flatMap]

/-! ## Reading back what was written -/

theorem hexAny_hexDigit (n : Nat) (h : n < 16) : hexAny (hexDigit n) = some n := by
  interval_cases n <;> decide

theorem readString_escapeU (n : Nat) (h : n < 65536) (tail acc : List Char) :
    readString (escapeU n ++ tail) .normal none acc =
      readString tail .normal (addUnit none n acc).1 (addUnit none n acc).2 := by
  have e : ((n / 4096 % 16 * 16 + n / 256 % 16) * 16 + n / 16 % 16) * 16 + n % 16 = n := by
    omega
  simp [escapeU, readString, hexAny_hexDigit _ (Nat.mod_lt _ (by decide : 0 < 16)), e]

theorem readString_escapeChar (ch : Char) (tail acc : List Char) :
    readString (escapeChar ch ++ tail) .normal none acc =
      readString tail .normal none (ch :: acc) := by
  unfold escapeChar
  by_cases h1 : ch = '"'
  · subst h1; simp [readString, simpleEscape, flushPending]
  by_cases h2 : ch = '\\'
  · subst h2; simp [readString, simpleEscape, flushPending]
  by_cases h3 : ch = '\n'
  · subst h3; simp [readString, simpleEscape, flushPending]
  by_cases h4 : ch = '\r'
  · subst h4; simp [readString, simpleEscape, flushPending]
  by_cases h5 : ch = '\t'
  · subst h5; simp [readString, simpleEscape, flushPending]
  simp only [h1, h2, h3, h4, h5, if_false]
  by_cases h6 : ch.toNat < 32 ∨ ch = '<' ∨ ch = '>' ∨ ch = '&' ∨ ch.toNat = 0x2028 ∨ ch.toNat = 0x2029
  · have hb : ch.toNat ≤ 0x2029 := by
      rcases h6 with h | h | h | h | h | h
      · omega
      · subst h; decide
      · subst h; decide
      · subst h; decide
      · omega
      · omega
    have e3 : ¬ (0xD800 ≤ ch.toNat ∧ ch.toNat ≤ 0xDBFF) := by omega
    have e4 : ¬ (0xD800 ≤ ch.toNat ∧ ch.toNat ≤ 0xDFFF) := by omega
    rw [if_pos h6, readString_escapeU _ (by omega)]
    simp only [addUnit, e3, e4, if_false, unitChar, Char.ofNat_toNat]
  · have h7 : ¬ ch.toNat < 32 := fun h => h6 (Or.inl h)
    rw [if_neg h6]
    simp only [List.cons_append, List.nil_append, readString, h1, h2, h7, if_false, flushPending]
    rfl

theorem readString_escapeChars (cs : List Char) : ∀ (rest acc : List Char),
    readString (escapeChars cs ++ '"' :: rest) .normal none acc =
      some (String.mk (acc.reverse ++ cs), rest) := by
  induction cs with
  | nil =>
    intro rest acc
    simp [escapeChars, readString, flushPending]
  | cons ch cs ih =>
    intro rest acc
    simp only [escapeChars, List.append_assoc]
    rw [readString_escapeChar, ih]
    simp
theorem skipWS_cons (ch : Char) (tail : List Char) (h : isWS ch = false) :
    skipWS (ch :: tail) = ch :: tail := by
  simp [skipWS, h]

theorem isDigit_digit (d : Nat) (h : d < 10) : isDigit (Char.ofNat (48 + d)) = true := by
  interval_cases d <;> decide

theorem decimalDigits_isDigit : ∀ fuel n, ∀ ch ∈ decimalDigits fuel n, isDigit ch = true := by
  intro fuel
  induction fuel with
  | zero => intro n ch h; simp [decimalDigits] at h
  | succ fuel ih =>
    intro n ch h
    by_cases h10 : n < 10
    · simp only [decimalDigits, h10, if_true, List.mem_singleton] at h
      rw [h]
      exact isDigit_digit n h10
    · simp only [decimalDigits, h10, if_false, List.mem_append, List.mem_singleton] at h
      rcases h with h | h
      · exact ih _ ch h
      · rw [h]
        exact isDigit_digit _ (Nat.mod_lt _ (by decide))

theorem spanChars_append (p : Char → Bool) (ds rest : List Char) (hd : ∀ ch ∈ ds, p ch = true)
    (hr : ∀ ch, rest.head? = some ch → p ch = false) :
    spanChars p (ds ++ rest) = (ds, rest) := by
  induction ds with
  | nil =>
    cases rest with
    | nil => rfl
    | cons ch tail => simp [spanChars, hr ch rfl]
  | cons d ds ih =>
    have h1 : p d = true := hd d (List.mem_cons_self _ _)
    have h2 := ih fun ch hch => hd ch (List.mem_cons_of_mem _ hch)
    simp [spanChars, h1, h2]

theorem okRest_not_digit (rest : List Char) (h : okRest rest) :
    ∀ ch, rest.head? = some ch → isDigit ch = false := by
  intro ch hch
  rcases h with h | h | h | h <;> rw [h] at hch
  · cases hch
  · cases hch; decide
  · cases hch; decide
  · cases hch; decide

theorem decimalDigits_ne_nil (fuel n : Nat) (h : n < fuel) : decimalDigits fuel n ≠ [] := by
  cases fuel with
  | zero => omega
  | succ fuel =>
    by_cases h10 : n < 10
    · simp [decimalDigits, h10]
    · simp [decimalDigits, h10]

theorem digitsValue_decimalDigits (fuel n : Nat) (h : n < fuel) :
    digitsValue (decimalDigits fuel n) = n := by
  simp [digitsValue, readDigits_decimalDigits fuel n h]

theorem decimalDigits_leading (fuel n : Nat) (h : n < fuel) :
    ¬ ((decimalDigits fuel n).head? = some '0' ∧ (decimalDigits fuel n).length > 1) := by
  rintro ⟨h0, hl⟩
  by_cases h10 : n < 10
  · cases fuel with
    | zero => omega
    | succ fuel => simp [decimalDigits, h10] at hl
  · obtain ⟨ch, rest, he, hne⟩ := decimalDigits_head fuel n h (by omega)
    rw [he] at h0
    simp at h0
    exact hne h0

theorem decimalDigits_eq_zero (fuel n : Nat) (h : n < fuel) (hn : 0 < n) :
    decimalDigits fuel n ≠ ['0'] := by
  obtain ⟨ch, rest, he, hne⟩ := decimalDigits_head fuel n h hn
  rw [he]
  intro hc
  simp at hc
  exact hne hc.1

theorem readNumber_digits (neg : Bool) (ds rest : List Char) (hds : ∀ ch ∈ ds, isDigit ch = true)
    (hne : ds ≠ []) (hlead : ¬ (ds.head? = some '0' ∧ ds.length > 1))
    (hz : ¬ (neg = true ∧ ds = ['0'])) (hrest : okRest rest) :
    readNumber ((if neg then ['-'] else []) ++ ds ++ rest) =
      some (.num (if neg then -(Int.ofNat (digitsValue ds)) else Int.ofNat (digitsValue ds)),
        rest) := by
  have hspan := spanChars_append isDigit ds rest hds (okRest_not_digit rest hrest)
  have hdot : rest.head? ≠ some '.' := by
    rcases hrest with h | h | h | h <;> rw [h] <;> simp
  have he : ¬ (rest.head? = some 'e' ∨ rest.head? = some 'E') := by
    rcases hrest with h | h | h | h <;> rw [h] <;> simp
  obtain ⟨d0, dt, hd0⟩ := List.exists_cons_of_ne_nil hne
  have hd0d : isDigit d0 = true := hds d0 (by rw [hd0]; exact List.mem_cons_self _ _)
  have hd0m : d0 ≠ '-' := by
    intro hc
    subst hc
    exact absurd hd0d (by decide)
  cases neg with
  | true =>
    have hcs : (((if true = true then ['-'] else []) ++ ds ++ rest) : List Char) = '-' :: (ds ++ rest) := by
      simp
    rw [hcs]
    simp only [readNumber, List.head?_cons, List.tail_cons, decide_True, if_true, hspan, hne,
      hlead, false_or, if_false, hdot, he, true_and, and_true, and_self, not_false_eq_true]
    simp at hz
    simp [hz]
  | false =>
    have hcs : (((if false = true then ['-'] else []) ++ ds ++ rest) : List Char) = ds ++ rest := by
      simp
    have hh : (ds ++ rest).head? ≠ some '-' := by
      rw [hd0]
      simp [hd0m]
    rw [hcs]
    simp only [readNumber, hh, decide_False, Bool.false_eq_true, if_false, hspan, hne, hlead,
      false_or, hdot, he, true_and, and_true, and_self, not_false_eq_true, false_and, if_true]

theorem readNumber_intChars (n : Int) (rest : List Char) (hrest : okRest rest) :
    readNumber (intChars n ++ rest) = some (.num n, rest) := by
  cases n with
  | ofNat m =>
    have h := readNumber_digits false (decimalDigits (m + 1) m) rest
      (decimalDigits_isDigit _ _) (decimalDigits_ne_nil _ _ (by omega))
      (decimalDigits_leading _ _ (by omega)) (by simp) hrest
    simp only [Bool.false_eq_true, if_false, List.nil_append,
      digitsValue_decimalDigits _ _ (Nat.lt_succ_self m)] at h
    exact h
  | negSucc m =>
    have h := readNumber_digits true (decimalDigits (m + 2) (m + 1)) rest
      (decimalDigits_isDigit _ _) (decimalDigits_ne_nil _ _ (by omega))
      (decimalDigits_leading _ _ (by omega))
      (by
        rintro ⟨_, hc⟩
        exact decimalDigits_eq_zero _ _ (by omega) (by omega) hc) hrest
    simp only [if_true, digitsValue_decimalDigits _ _ (Nat.lt_succ_self (m + 1))] at h
    simpa [intChars, Int.negSucc_eq] using h

theorem numStart (ch : Char) (h : isDigit ch = true ∨ ch = '-') :
    ch ≠ 'n' ∧ ch ≠ 't' ∧ ch ≠ 'f' ∧ ch ≠ '"' ∧ ch ≠ '[' ∧ ch ≠ '\x7b' ∧ ch ≠ ']' ∧ ch ≠ '\x7d' ∧
      isWS ch = false := by
  rcases h with h | h
  · refine ⟨?_, ?_, ?_, ?_, ?_, ?_, ?_, ?_, ?_⟩
    all_goals first
      | (intro hc; subst hc; revert h; decide)
      | (have h1 : ch ≠ ' ' := (by intro hc; subst hc; revert h; decide)
         have h2 : ch ≠ '\n' := (by intro hc; subst hc; revert h; decide)
         have h3 : ch ≠ '\r' := (by intro hc; subst hc; revert h; decide)
         have h4 : ch ≠ '\t' := (by intro hc; subst hc; revert h; decide)
         simp [isWS, h1, h2, h3, h4])
  · subst h
    decide

theorem intChars_head (n : Int) :
    ∃ ch tail, intChars n = ch :: tail ∧ (isDigit ch = true ∨ ch = '-') := by
  cases n with
  | ofNat m =>
    obtain ⟨ch, tail, he⟩ := List.exists_cons_of_ne_nil (decimalDigits_ne_nil (m + 1) m (by omega))
    exact ⟨ch, tail, he, Or.inl (decimalDigits_isDigit _ _ ch (by rw [he]; exact List.mem_cons_self _ _))⟩
  | negSucc m => exact ⟨'-', _, rfl, Or.inr rfl⟩

/-- The first character of the text of a document is no white space and closes
nothing. -/
theorem renderChars_head (doc : JSON) (h : doc.noFloat = true) :
    ∃ ch tail, renderChars doc = ch :: tail ∧ isWS ch = false ∧ ch ≠ ']' ∧ ch ≠ '\x7d' := by
  cases doc with
  | null => exact ⟨'n', _, rfl, by decide, by decide, by decide⟩
  | bool b =>
    cases b
    · exact ⟨'f', _, rfl, by decide, by decide, by decide⟩
    · exact ⟨'t', _, rfl, by decide, by decide, by decide⟩
  | num n =>
    obtain ⟨ch, tail, he, hc⟩ := intChars_head n
    have hs := numStart ch hc
    exact ⟨ch, tail, by simp [renderChars, he], hs.2.2.2.2.2.2.2.2, hs.2.2.2.2.2.2.1,
      hs.2.2.2.2.2.2.2.1⟩
  | float lit => simp [JSON.noFloat] at h
  | str s => exact ⟨'"', _, by rw [renderChars], by decide, by decide, by decide⟩
  | arr xs => exact ⟨'[', _, by rw [renderChars], by decide, by decide, by decide⟩
  | obj kvs => exact ⟨'\x7b', _, by rw [renderChars], by decide, by decide, by decide⟩

theorem okRest_comma (t : List Char) : okRest (',' :: t) := Or.inr (Or.inl rfl)
theorem okRest_bracket (t : List Char) : okRest (']' :: t) := Or.inr (Or.inr (Or.inl rfl))
theorem okRest_brace (t : List Char) : okRest ('\x7d' :: t) := Or.inr (Or.inr (Or.inr rfl))

theorem parseValue_num (fuel : Nat) (n : Int) (rest : List Char) (hr : okRest rest) :
    parseValue (fuel + 1) (intChars n ++ rest) = some (.num n, rest) := by
  obtain ⟨ch, tail, he, hc⟩ := intChars_head n
  obtain ⟨h1, h2, h3, h4, h5, h6, _, _, hws⟩ := numStart ch hc
  have hn := readNumber_intChars n rest hr
  rw [he] at hn ⊢
  simp only [List.cons_append] at hn ⊢
  simp only [parseValue, skipWS_cons _ _ hws, h1, h2, h3, h4, h5, h6, if_false, hn]

mutual
theorem parseValue_render : ∀ (doc : JSON), doc.noFloat = true → ∀ (fuel : Nat) (rest : List Char),
    doc.size ≤ fuel → okRest rest → parseValue fuel (renderChars doc ++ rest) = some (doc, rest)
  | .null, _, fuel, rest, hf, _ => by
    obtain ⟨f, rfl⟩ : ∃ f, fuel = f + 1 := ⟨fuel - 1, by simp [JSON.size] at hf; omega⟩
    simp [parseValue, renderChars, skipWS, isWS, dropLit]
  | .bool true, _, fuel, rest, hf, _ => by
    obtain ⟨f, rfl⟩ : ∃ f, fuel = f + 1 := ⟨fuel - 1, by simp [JSON.size] at hf; omega⟩
    simp [parseValue, renderChars, skipWS, isWS, dropLit]
  | .bool false, _, fuel, rest, hf, _ => by
    obtain ⟨f, rfl⟩ : ∃ f, fuel = f + 1 := ⟨fuel - 1, by simp [JSON.size] at hf; omega⟩
    simp [parseValue, renderChars, skipWS, isWS, dropLit]
  | .num n, _, fuel, rest, hf, hr => by
    obtain ⟨f, rfl⟩ : ∃ f, fuel = f + 1 := ⟨fuel - 1, by simp [JSON.size] at hf; omega⟩
    rw [renderChars]
    exact parseValue_num f n rest hr
  | .float lit, h, _, _, _, _ => by simp [JSON.noFloat] at h
  | .str s, _, fuel, rest, hf, _ => by
    obtain ⟨f, rfl⟩ : ∃ f, fuel = f + 1 := ⟨fuel - 1, by simp [JSON.size] at hf; omega⟩
    have hs := readString_escapeChars s.data rest []
    simp only [renderChars, List.cons_append, List.append_assoc, List.singleton_append,
      parseValue, skipWS_cons '"' _ (by decide)]
    simp [hs]
  | .arr [], _, fuel, rest, hf, _ => by
    obtain ⟨f, rfl⟩ : ∃ f, fuel = f + 1 := ⟨fuel - 1, by simp [JSON.size] at hf; omega⟩
    simp [parseValue, renderChars, renderElems, skipWS, isWS]
  | .arr (x :: xs), h, fuel, rest, hf, _ => by
    obtain ⟨f, rfl⟩ : ∃ f, fuel = f + 1 := ⟨fuel - 1, by simp [JSON.size] at hf; omega⟩
    have hf' : sizeList (x :: xs) ≤ f := by simp [JSON.size] at hf; omega
    have hx : x.noFloat = true := by simp [JSON.noFloat, noFloatList] at h; exact h.1
    have hl : noFloatList (x :: xs) = true := by simpa [JSON.noFloat] using h
    have ih := parseElems_render (x :: xs) (by simp) hl f rest hf'
    obtain ⟨ch, tail, he, hws, hb, _⟩ := renderChars_head x hx
    have hhead : ∃ tail', renderElems (x :: xs) ++ ']' :: rest = ch :: tail' := by
      cases xs with
      | nil => exact ⟨tail ++ ']' :: rest, by rw [renderElems, he]; rfl⟩
      | cons y ys => exact ⟨_, by rw [renderElems, he]; rfl⟩
    obtain ⟨tail', ht⟩ := hhead
    rw [ht] at ih
    have hren : renderChars (.arr (x :: xs)) ++ rest =
        '[' :: (renderElems (x :: xs) ++ ']' :: rest) := by simp [renderChars]
    rw [hren, ht]
    simp [parseValue, skipWS_cons '[' _ (by decide), skipWS_cons ch _ hws, hb, ih]
  | .obj [], _, fuel, rest, hf, _ => by
    obtain ⟨f, rfl⟩ : ∃ f, fuel = f + 1 := ⟨fuel - 1, by simp [JSON.size] at hf; omega⟩
    simp [parseValue, renderChars, renderMembers, skipWS, isWS]
  | .obj ((k, v) :: kvs), h, fuel, rest, hf, _ => by
    obtain ⟨f, rfl⟩ : ∃ f, fuel = f + 1 := ⟨fuel - 1, by simp [JSON.size] at hf; omega⟩
    have hf' : sizeMembers ((k, v) :: kvs) ≤ f := by simp [JSON.size] at hf; omega
    have hl : noFloatMembers ((k, v) :: kvs) = true := by simpa [JSON.noFloat] using h
    have ih := parseMembers_render ((k, v) :: kvs) (by simp) hl f rest hf'
    have hhead : ∃ tail', renderMembers ((k, v) :: kvs) ++ '\x7d' :: rest = '"' :: tail' := by
      cases kvs with
      | nil => exact ⟨_, by rw [renderMembers]; rfl⟩
      | cons y ys => exact ⟨_, by rw [renderMembers]; rfl⟩
    obtain ⟨tail', ht⟩ := hhead
    rw [ht] at ih
    have hren : renderChars (.obj ((k, v) :: kvs)) ++ rest =
        '\x7b' :: (renderMembers ((k, v) :: kvs) ++ '\x7d' :: rest) := by simp [renderChars]
    rw [hren, ht]
    simp [parseValue, skipWS_cons '\x7b' _ (by decide), skipWS_cons '"' _ (by decide), ih]
theorem parseElems_render : ∀ (xs : List JSON), xs ≠ [] → noFloatList xs = true →
    ∀ (fuel : Nat) (rest : List Char), sizeList xs ≤ fuel →
      parseElems fuel (renderElems xs ++ ']' :: rest) = some (xs, rest)
  | [], h, _, _, _, _ => absurd rfl h
  | [x], _, hl, fuel, rest, hf => by
    obtain ⟨f, rfl⟩ : ∃ f, fuel = f + 1 := ⟨fuel - 1, by simp [sizeList] at hf; omega⟩
    have hx : x.noFloat = true := by simpa [noFloatList] using hl
    have ih := parseValue_render x hx f (']' :: rest) (by simp [sizeList] at hf; omega)
      (okRest_bracket rest)
    simp [parseElems, renderElems, ih, skipWS_cons ']' _ (by decide)]
  | x :: y :: ys, _, hl, fuel, rest, hf => by
    obtain ⟨f, rfl⟩ : ∃ f, fuel = f + 1 := ⟨fuel - 1, by simp [sizeList] at hf; omega⟩
    have hx : x.noFloat = true := by simp [noFloatList] at hl; exact hl.1
    have hys : noFloatList (y :: ys) = true := by
      simp [noFloatList] at hl ⊢
      exact hl.2
    have ih1 := parseValue_render x hx f (',' :: (renderElems (y :: ys) ++ ']' :: rest))
      (by simp [sizeList] at hf; omega) (okRest_comma _)
    have ih2 := parseElems_render (y :: ys) (by simp) hys f rest (by simp [sizeList] at hf ⊢; omega)
    simp only [renderElems, List.append_assoc, List.cons_append, parseElems, ih1,
      skipWS_cons ',' _ (by decide)]
    simp [ih2]
theorem parseMembers_render : ∀ (kvs : List (String × JSON)), kvs ≠ [] →
    noFloatMembers kvs = true → ∀ (fuel : Nat) (rest : List Char), sizeMembers kvs ≤ fuel →
      parseMembers fuel (renderMembers kvs ++ '\x7d' :: rest) = some (kvs, rest)
  | [], h, _, _, _, _ => absurd rfl h
  | [(k, v)], _, hl, fuel, rest, hf => by
    obtain ⟨f, rfl⟩ : ∃ f, fuel = f + 1 := ⟨fuel - 1, by simp [sizeMembers] at hf; omega⟩
    have hv : v.noFloat = true := by simpa [noFloatMembers] using hl
    have ih := parseValue_render v hv f ('\x7d' :: rest) (by simp [sizeMembers] at hf; omega)
      (okRest_brace rest)
    have hs := readString_escapeChars k.data (':' :: (renderChars v ++ '\x7d' :: rest)) []
    simp only [renderMembers, List.cons_append, List.append_assoc, parseMembers,
      skipWS_cons '"' _ (by decide)]
    simp [hs, skipWS_cons ':' _ (by decide), ih, skipWS_cons '\x7d' _ (by decide)]
  | (k, v) :: m :: ms, _, hl, fuel, rest, hf => by
    obtain ⟨f, rfl⟩ : ∃ f, fuel = f + 1 := ⟨fuel - 1, by simp [sizeMembers] at hf; omega⟩
    have hv : v.noFloat = true := by simp [noFloatMembers] at hl; exact hl.1
    have hms : noFloatMembers (m :: ms) = true := by
      simp [noFloatMembers] at hl ⊢
      exact hl.2
    have ih1 := parseValue_render v hv f (',' :: (renderMembers (m :: ms) ++ '\x7d' :: rest))
      (by simp [sizeMembers] at hf; omega) (okRest_comma _)
    have ih2 := parseMembers_render (m :: ms) (by simp) hms f rest
      (by simp [sizeMembers] at hf ⊢; omega)
    have hs := readString_escapeChars k.data
      (':' :: (renderChars v ++ ',' :: (renderMembers (m :: ms) ++ '\x7d' :: rest))) []
    simp only [renderMembers, List.cons_append, List.append_assoc, parseMembers,
      skipWS_cons '"' _ (by decide)]
    simp [hs, skipWS_cons ':' _ (by decide), ih1, skipWS_cons ',' _ (by decide), ih2]
end

theorem intChars_length_pos (n : Int) : 0 < (intChars n).length := by
  obtain ⟨ch, tail, he, _⟩ := intChars_head n
  rw [he]
  simp

mutual
theorem size_le_length : ∀ (doc : JSON), doc.noFloat = true → doc.size ≤ (renderChars doc).length
  | .null, _ => by simp [JSON.size, renderChars]
  | .bool b, _ => by cases b <;> simp [JSON.size, renderChars]
  | .num n, _ => by
    have := intChars_length_pos n
    simp only [JSON.size, renderChars]
    omega
  | .float lit, h => by simp [JSON.noFloat] at h
  | .str s, _ => by simp [JSON.size, renderChars]
  | .arr xs, h => by
    have ih := sizeList_le_length xs (by simpa [JSON.noFloat] using h)
    simp only [JSON.size, renderChars, List.length_cons, List.length_append, List.length_nil]
    omega
  | .obj kvs, h => by
    have ih := sizeMembers_le_length kvs (by simpa [JSON.noFloat] using h)
    simp only [JSON.size, renderChars, List.length_cons, List.length_append, List.length_nil]
    omega
theorem sizeList_le_length : ∀ (xs : List JSON), noFloatList xs = true →
    sizeList xs ≤ (renderElems xs).length + 1
  | [], _ => by simp [sizeList]
  | [x], h => by
    have ih := size_le_length x (by simpa [noFloatList] using h)
    simp only [sizeList, renderElems]
    omega
  | x :: y :: ys, h => by
    have hx : x.noFloat = true := by simp [noFloatList] at h; exact h.1
    have hys : noFloatList (y :: ys) = true := by
      simp [noFloatList] at h ⊢
      exact h.2
    have ih1 := size_le_length x hx
    have ih2 := sizeList_le_length (y :: ys) hys
    simp only [sizeList, renderElems, List.length_append, List.length_cons] at ih2 ⊢
    omega
theorem sizeMembers_le_length : ∀ (kvs : List (String × JSON)), noFloatMembers kvs = true →
    sizeMembers kvs ≤ (renderMembers kvs).length + 1
  | [], _ => by simp [sizeMembers]
  | [(k, v)], h => by
    have ih := size_le_length v (by simpa [noFloatMembers] using h)
    simp only [sizeMembers, renderMembers, List.length_append, List.length_cons]
    omega
  | (k, v) :: m :: ms, h => by
    have hv : v.noFloat = true := by simp [noFloatMembers] at h; exact h.1
    have hms : noFloatMembers (m :: ms) = true := by
      simp [noFloatMembers] at h ⊢
      exact h.2
    have ih1 := size_le_length v hv
    have ih2 := sizeMembers_le_length (m :: ms) hms
    simp only [sizeMembers, renderMembers, List.length_append, List.length_cons] at ih2 ⊢
    omega
end

/-- Reading the text written for a document gives the document back, when the
document has no `float`. -/
theorem parseText_renderChars (doc : JSON) (h : doc.noFloat = true) :
    parseText (renderChars doc) = some doc := by
  have hp := parseValue_render doc h ((renderChars doc).length + 1) []
    (by have := size_le_length doc h; omega) (Or.inl rfl)
  rw [List.append_nil] at hp
  simp [parseText, hp, skipWS]

theorem noFloatMembers_append (a b : List (String × JSON)) :
    noFloatMembers (a ++ b) = (noFloatMembers a && noFloatMembers b) := by
  induction a with
  | nil => simp [noFloatMembers]
  | cons kv rest ih =>
    obtain ⟨k, v⟩ := kv
    simp [noFloatMembers, ih, Bool.and_assoc]

theorem noFloatList_strs (xs : List GoString) :
    noFloatList (xs.map fun b => JSON.str (toValidUTF8 b)) = true := by
  induction xs with
  | nil => rfl
  | cons x xs ih => simp [noFloatList, JSON.noFloat, ih]

theorem noFloat_goStringsDoc (er : Slice GoString) : (goStringsDoc er).noFloat = true := by
  cases er with
  | none => rfl
  | some xs => simp [goStringsDoc, JSON.noFloat, noFloatList_strs]

theorem noFloatMembers_field (k : String) (o : Bool) (v : GoValue)
    (h : (docOf v).noFloat = true) : noFloatMembers (fieldMembers (k, o, v)) = true := by
  unfold fieldMembers
  by_cases hc : (o && v.isEmptyValue) = true
  · simp [hc, noFloatMembers]
  · simp [hc, noFloatMembers, h]

theorem Record.doc_noFloat (r : Record) : (docOf r.toGoValue).noFloat = true := by
  obtain ⟨dd, fa, fo, gl, hl, id, mo, na, so, si, tt, ty, va, er⟩ := r
  have herr : (docOf (GoValue.ofGoStrings er)).noFloat = true := by
    rw [docOf, marshalValue_ofGoStrings]
    exact noFloat_goStringsDoc er
  rw [Record.docOf_members]
  simp only [JSON.noFloat, noFloatMembers_append, Bool.and_eq_true]
  refine ⟨?_, ?_, ?_, ?_, ?_, ?_, ?_, ?_, ?_, ?_, ?_, ?_, ?_, ?_⟩
  all_goals first
    | exact noFloatMembers_field _ _ _ herr
    | exact noFloatMembers_field _ _ _ rfl

/-- The example environment reads back every document without `float` that it
writes. -/
theorem exampleEnv_reads_written (resp : Response) (doc : JSON) (h : doc.noFloat = true) :
    (exampleEnv resp).jsonParse ((exampleEnv resp).jsonEncode doc) = some doc := by
  show parseText (toValidUTF8 (utf8Bytes (renderJSON doc))).data = some doc
  rw [toValidUTF8_utf8Bytes]
  exact parseText_renderChars doc h

theorem exampleEnv_parse_render (resp : Response) (doc : JSON) :
    (exampleEnv resp).jsonParse ((exampleEnv resp).jsonEncode doc) =
      parseText (renderJSON doc).data := by
  show parseText (toValidUTF8 (utf8Bytes (renderJSON doc))).data = _
  rw [toValidUTF8_utf8Bytes]

theorem invalidNameRecord_doc :
    docOf invalidNameRecord.toGoValue =
      .obj [("gtdLocation", .str "DEFAULT"), ("name", .str "\uFFFD"), ("ttl", .num 60),
        ("type", .str "A"), ("value", .str "127.0.0.1")] := by rfl

theorem parseText_invalidNameRecord :
    parseText (renderJSON (.obj [("gtdLocation", .str "DEFAULT"), ("name", .str "\uFFFD"),
      ("ttl", .num 60), ("type", .str "A"), ("value", .str "127.0.0.1")])).data =
      some (.obj [("gtdLocation", .str "DEFAULT"), ("name", .str "\uFFFD"), ("ttl", .num 60),
        ("type", .str "A"), ("value", .str "127.0.0.1")]) := by rfl

/-- C9, the counterexample: the record of `TestAddRecord` with the name `"\xff"`.
`json.Marshal` writes the name as U+FFFD, so unmarshaling the result into a zero
`Record` succeeds and yields the three-byte name `"\xef\xbf\xbd"`, not the name that
was marshaled. -/
theorem record_roundtrip_coerces_invalid_utf8 :
    marshalValue invalidNameRecord.toGoValue =
      .ok (.obj [("gtdLocation", .str "DEFAULT"), ("name", .str "\uFFFD"), ("ttl", .num 60),
        ("type", .str "A"), ("value", .str "127.0.0.1")]) ∧
    (Record.decode (docOf invalidNameRecord.toGoValue) Record.zero).2 = none ∧
    (Record.decode (docOf invalidNameRecord.toGoValue) Record.zero).1.Name = [0xEF, 0xBF, 0xBD] ∧
    invalidNameRecord.Name = [0xFF] ∧
    ((jsonUnmarshal (exampleEnv ⟨200, []⟩) Record.decode
      ((exampleEnv ⟨200, []⟩).jsonEncode (docOf invalidNameRecord.toGoValue))
      (some Record.zero)).1.map Record.Name) = some [0xEF, 0xBF, 0xBD] := by
  refine ⟨by rfl, by rfl, by decide, by rfl, ?_⟩
  simp only [jsonUnmarshal, exampleEnv_parse_render, invalidNameRecord_doc,
    parseText_invalidNameRecord]
  decide

/-- C9, as the code has it: for every `Record` whose name, type, value and
gtdLocation are valid UTF-8 (and whose integers are in the range of their Go
types), marshaling it gives a document that decodes into a zero `Record` without
error, and the `Record` decoded is equal to it on name, type, value, ttl and
gtdLocation; each optional field is a key of the marshaled object exactly when it
is set, and when none is set the keys are exactly gtdLocation, name, ttl, type and
value.  In every environment `json.Marshal` returns the bytes of that document, and
`json.Unmarshal` of these bytes yields that `Record` when the reader gives back
the document written; it does so in the example environment, whose writer is
`renderJSON` and whose reader is the parser `parseText`. -/
theorem record_marshal_roundtrip (r : Record) (h : r.inRange)
    (hn : validUTF8 r.Name) (ht : validUTF8 r.Type_) (hv : validUTF8 r.Value)
    (hg : validUTF8 r.GtdLocation) :
    ∃ (doc : JSON) (r' : Record),
      marshalValue r.toGoValue = .ok doc ∧
      Record.decode doc Record.zero = (r', none) ∧
      (r'.Name = r.Name ∧ r'.Type_ = r.Type_ ∧ r'.Value = r.Value ∧ r'.Ttl = r.Ttl ∧
        r'.GtdLocation = r.GtdLocation) ∧
      (("id" ∈ doc.keys ↔ r.Id ≠ 0) ∧
        ("DynamicDns" ∈ doc.keys ↔ r.DynamicDns = true) ∧
        ("Failed" ∈ doc.keys ↔ r.Failed = true) ∧
        ("Failover" ∈ doc.keys ↔ r.Failover = true) ∧
        ("HardLink" ∈ doc.keys ↔ r.HardLink = true) ∧
        ("Monitor" ∈ doc.keys ↔ r.Monitor = true) ∧
        ("Source" ∈ doc.keys ↔ r.Source ≠ 0) ∧
        ("SourceId" ∈ doc.keys ↔ r.SourceId ≠ 0) ∧
        ("error" ∈ doc.keys ↔ r.Error.getD [] ≠ [])) ∧
      (r.Id = 0 → r.DynamicDns = false → r.Failed = false → r.Failover = false →
        r.HardLink = false → r.Monitor = false → r.Source = 0 → r.SourceId = 0 →
        r.Error.getD [] = [] →
        doc.keys = ["gtdLocation", "name", "ttl", "type", "value"]) ∧
      (∀ env : Env, jsonMarshal env r.toGoValue = .ok (env.jsonEncode doc) ∧
        (env.jsonParse (env.jsonEncode doc) = some doc →
          jsonUnmarshal env Record.decode (env.jsonEncode doc) (some Record.zero) =
            (some r', none))) ∧
      (∀ resp : Response,
        jsonUnmarshal (exampleEnv resp) Record.decode ((exampleEnv resp).jsonEncode doc)
          (some Record.zero) = (some r', none)) := by
  obtain ⟨e, he⟩ := Record.decode_marshal r h
  rw [coerceUTF8_of_valid _ hn, coerceUTF8_of_valid _ ht, coerceUTF8_of_valid _ hv,
    coerceUTF8_of_valid _ hg] at he
  refine ⟨docOf r.toGoValue, { r with Error := e }, Record.marshal_ok r, he,
    ⟨rfl, rfl, rfl, rfl, rfl⟩, ?_, ?_, ?_, ?_⟩
  · rw [Record.keys_members]
    obtain ⟨dd, fa, fo, gl, hl, id, mo, na, so, si, tt, ty, va, er⟩ := r
    simp only [Record.toGoValue, List.flatMap_cons, List.flatMap_nil, List.append_nil,
      List.mem_append, mem_keys_fieldMembers]
    refine ⟨?_, ?_, ?_, ?_, ?_, ?_, ?_, ?_, ?_⟩
    · simp [GoValue.isEmptyValue]
    · simp [GoValue.isEmptyValue]
    · simp [GoValue.isEmptyValue]
    · simp [GoValue.isEmptyValue]
    · simp [GoValue.isEmptyValue]
    · simp [GoValue.isEmptyValue]
    · simp [GoValue.isEmptyValue]
    · simp [GoValue.isEmptyValue]
    · rcases er with _ | _ | ⟨x, xs⟩ <;> simp [GoValue.isEmptyValue, GoValue.ofGoStrings]
  · rw [Record.keys_members]
    obtain ⟨dd, fa, fo, gl, hl, id, mo, na, so, si, tt, ty, va, er⟩ := r
    intro h1 h2 h3 h4 h5 h6 h7 h8 h9
    simp only at h1 h2 h3 h4 h5 h6 h7 h8 h9
    subst h1 h2 h3 h4 h5 h6 h7 h8
    rcases er with _ | _ | ⟨x, xs⟩
    · rfl
    · rfl
    · simp at h9
  · intro env
    refine ⟨jsonMarshal_record env r, fun hrt => ?_⟩
    simp only [jsonUnmarshal, hrt, he, Option.map_none']
  · intro resp
    simp only [jsonUnmarshal, exampleEnv_reads_written resp _ (Record.doc_noFloat r), he,
      Option.map_none']

/-- An instance of C9: the record of `TestAddRecord`, written by `renderJSON` and
read back by `parseText`. -/
theorem record_marshal_roundtrip_witness :
    ∃ (doc : JSON) (r' : Record),
      marshalValue exampleRecord.toGoValue = .ok doc ∧
      jsonMarshal (exampleEnv ⟨200, []⟩) exampleRecord.toGoValue =
        .ok ((exampleEnv ⟨200, []⟩).jsonEncode doc) ∧
      jsonUnmarshal (exampleEnv ⟨200, []⟩) Record.decode ((exampleEnv ⟨200, []⟩).jsonEncode doc)
        (some Record.zero) = (some r', none) ∧
      (r'.Name = utf8Bytes "a-record" ∧ r'.Type_ = utf8Bytes "A" ∧
        r'.Value = utf8Bytes "127.0.0.1" ∧ r'.Ttl = 60 ∧ r'.GtdLocation = utf8Bytes "DEFAULT") ∧
      doc.keys = ["gtdLocation", "name", "ttl", "type", "value"] := by
  obtain ⟨doc, r', h1, _, h3, _, h5, h6, h7⟩ :=
    record_marshal_roundtrip exampleRecord (by decide) ⟨"a-record", rfl⟩ ⟨"A", rfl⟩
      ⟨"127.0.0.1", rfl⟩ ⟨"DEFAULT", rfl⟩
  exact ⟨doc, r', h1, (h6 (exampleEnv ⟨200, []⟩)).1, h7 ⟨200, []⟩, h3,
    h5 rfl rfl rfl rfl rfl rfl rfl rfl rfl⟩

end DNSMadeEasy
